import Mathlib

/-!
Shallow embedding of the maze generator in `src/maze-generator.ts`
(repository MAZEDASH) and proofs about it.

Modelling conventions:
* JavaScript numbers holding grid coordinates are embedded as `Int`;
  world-space coordinates and the PRNG output are embedded as `Rat`.
* The module's trig-based PRNG `seedRandom` reads the module-level counter
  `currentSeed` and increments it; its value is a fixed pure function of the
  counter.  We abstract that function as a parameter `ρ : Nat → Rat`
  (counter value ↦ output); the counter itself is part of the state.
  The output range of the source generator is `[0, 1)`.
* The nested JavaScript arrays `grid[y][x]` of fixed size 50 × 50 are
  embedded as a total function `Int → Int → Cell`; every access site keeps
  the bounds guard of the corresponding optional-chaining access
  (`this.grid[y]?.[x]`), which yields `undefined` exactly outside
  `0 ≤ x, y < 50`.
* The JavaScript array indexing `a[i]` with a possibly out-of-range or
  negative index (yielding `undefined`) is embedded as `jsGet : List α → Int
  → Option α`.
* Methods that write instance fields or the module-level seed counter take
  and return a `MazeState`; methods that read only are plain functions.
* The unbounded `while` loops are embedded with explicit fuel
  (`dfsLoop`) or well-founded recursion (`pathLoop`); the carving loop of
  the source terminates, and the proofs show the chosen fuel is never
  exhausted when the PRNG outputs stay inside `[0, 1)`.
-/

namespace MazeDash

/-- Wall directions, as in the source's string literals. -/
inductive WallDir where
  | top
  | right
  | bottom
  | left
deriving DecidableEq, Repr

/-- The `walls` record of a cell: `true` means the wall is present. -/
structure Walls where
  top : Bool
  right : Bool
  bottom : Bool
  left : Bool
deriving DecidableEq, Repr

/-- Cell object for maze generation (interface `Cell` in the source). -/
structure Cell where
  x : Int
  y : Int
  visited : Bool
  walls : Walls
deriving DecidableEq, Repr

/-- Read a wall flag by direction. -/
def Walls.get (w : Walls) : WallDir → Bool
  | WallDir.top => w.top
  | WallDir.right => w.right
  | WallDir.bottom => w.bottom
  | WallDir.left => w.left

/-- Set a wall flag by direction (models `cell.walls[dir] = b`). -/
def Walls.set (w : Walls) : WallDir → Bool → Walls
  | WallDir.top, b => { w with top := b }
  | WallDir.right, b => { w with right := b }
  | WallDir.bottom, b => { w with bottom := b }
  | WallDir.left, b => { w with left := b }

/-- Direction vectors (interface `Direction` in the source). -/
structure Direction where
  x : Int
  y : Int
  wall : WallDir
  opposite : WallDir
deriving DecidableEq, Repr

/-- The fixed `DIRECTIONS` array: top, right, bottom, left. -/
def DIRECTIONS : List Direction :=
  [ ⟨0, -1, WallDir.top, WallDir.bottom⟩,
    ⟨1, 0, WallDir.right, WallDir.left⟩,
    ⟨0, 1, WallDir.bottom, WallDir.top⟩,
    ⟨-1, 0, WallDir.left, WallDir.right⟩ ]

/-- Constant `MAZE_SIZE = 50`. -/
def MAZE_SIZE : Int := 50

/-- Constant `PATH_WIDTH = 4` (used in world-space arithmetic). -/
def PATH_WIDTH : Rat := 4

/-- Constant `PLATFORM_DEPTH = 10`. -/
def PLATFORM_DEPTH : Rat := 10

/-- Constant `FIXED_SEED = 12345`, the initial value of `currentSeed`. -/
def FIXED_SEED : Nat := 12345

/-- A world-space point `{x, y, z}`. -/
structure Vec3 where
  x : Rat
  y : Rat
  z : Rat
deriving DecidableEq, Repr

/-- The grid: embedding of the 50 × 50 cell matrix as a total function.
Index order follows the source, which accesses `grid[y][x]`; we curry as
`grid x y` with the same meaning (column `x`, row `y`). -/
def Grid : Type := Int → Int → Cell

/-- State of one `MazeGenerator` instance together with the module-level
seed counter `currentSeed`. -/
structure MazeState where
  grid : Grid
  entrance : Int × Int
  exitCell : Int × Int
  entranceWorldPosition : Vec3
  currentSeed : Nat

/-- The seeded random number generator: reads `currentSeed`, increments it.
`ρ` abstracts the pure function counter ↦ fractional part of
`sin(counter) * 10000`, whose range is `[0, 1)`. -/
def seedRandom (ρ : Nat → Rat) (s : MazeState) : Rat × MazeState :=
  (ρ s.currentSeed, { s with currentSeed := s.currentSeed + 1 })

/-- JavaScript array indexing `a[i]`: `undefined` (here `none`) for any
index outside `0 ≤ i < a.length`, including negative indices. -/
def jsGet {α : Type} (l : List α) (i : Int) : Option α :=
  if 0 ≤ i then l.get? i.toNat else none

/-- Method `isValidCell(x, y)`. -/
def isValidCell (x y : Int) : Bool :=
  decide (0 ≤ x ∧ x < MAZE_SIZE ∧ 0 ≤ y ∧ y < MAZE_SIZE)

/-- The optional-chaining access `this.grid[y]?.[x]`: `undefined` exactly
outside the allocated 50 × 50 range. -/
def getCell (g : Grid) (x y : Int) : Option Cell :=
  if isValidCell x y then some (g x y) else none

/-- Pointwise functional update of the grid at one coordinate. -/
def updateCell (g : Grid) (x y : Int) (f : Cell → Cell) : Grid :=
  fun a b => if a = x ∧ b = y then f (g a b) else g a b

/-- Mutation `cell.visited = true` at `(x, y)`. -/
def setVisited (g : Grid) (x y : Int) : Grid :=
  updateCell g x y (fun c => { c with visited := true })

/-- Mutation `cell.walls[w] = false` at `(x, y)`. -/
def removeWall (g : Grid) (x y : Int) (w : WallDir) : Grid :=
  updateCell g x y (fun c => { c with walls := c.walls.set w false })

/-- Method `initializeGrid()`: every cell carries its coordinates, is
unvisited and has all four walls. -/
def initializeGrid : Grid :=
  fun x y => ⟨x, y, false, ⟨true, true, true, true⟩⟩

/-- The state right after `new MazeGenerator()`: grid initialized, numeric
fields at their declared initial values, `currentSeed` reset to
`FIXED_SEED`. -/
def constructorState : MazeState :=
  { grid := initializeGrid
    entrance := (0, 0)
    exitCell := (0, 0)
    entranceWorldPosition := ⟨0, 1, 0⟩
    currentSeed := FIXED_SEED }

/-- Method `isWalkableCell(gridX, gridZ)`: `cell?.visited || false` on the
guarded access `this.grid[gridZ]?.[gridX]`. -/
def isWalkableCell (g : Grid) (gridX gridZ : Int) : Bool :=
  match getCell g gridX gridZ with
  | some c => c.visited
  | none => false

/-- Method `isWalkablePath(worldX, worldY, worldZ)`.  The `worldY`
argument is ignored by the source body. -/
def isWalkablePath (s : MazeState) (worldX worldY worldZ : Rat) : Bool :=
  if worldZ < 0 ∨ worldZ ≥ (MAZE_SIZE : Rat) * PATH_WIDTH then
    true
  else
    let gridX : Int := Int.floor (worldX / PATH_WIDTH)
    let gridZ : Int := Int.floor (worldZ / PATH_WIDTH)
    isValidCell gridX gridZ && isWalkableCell s.grid gridX gridZ

/-- Method `getCellCenter(gridX, gridZ)`; its `y` uses the cached
`entranceWorldPosition.y + 1.0`. -/
def getCellCenter (s : MazeState) (gridX gridZ : Int) : Vec3 :=
  { x := (gridX : Rat) * PATH_WIDTH + PATH_WIDTH / 2
    y := s.entranceWorldPosition.y + 1
    z := (gridZ : Rat) * PATH_WIDTH + PATH_WIDTH / 2 }

/-- Method `getAllWalkableCells()`: row-major enumeration (`z` outer, `x`
inner) of cells with `visited = true`, as `(x, z)` pairs. -/
def getAllWalkableCells (s : MazeState) : List (Int × Int) :=
  (List.range MAZE_SIZE.toNat).flatMap (fun z =>
    (List.range MAZE_SIZE.toNat).filterMap (fun x =>
      if isWalkableCell s.grid (Int.ofNat x) (Int.ofNat z) then
        some (Int.ofNat x, Int.ofNat z)
      else none))

/-- Method `getEntrance()`: computes the entrance world anchor and WRITES
it into the instance field `entranceWorldPosition`. -/
def getEntrance (s : MazeState) : Vec3 × MazeState :=
  let pos : Vec3 :=
    { x := (s.entrance.1 : Rat) * PATH_WIDTH + PATH_WIDTH / 2
      y := 1
      z := -(PLATFORM_DEPTH / 2) }
  (pos, { s with entranceWorldPosition := pos })

/-- Method `getExit()`: a pure read. -/
def getExit (s : MazeState) : Vec3 :=
  { x := (s.exitCell.1 : Rat) * PATH_WIDTH + PATH_WIDTH / 2
    y := 1
    z := (MAZE_SIZE : Rat) * PATH_WIDTH + PLATFORM_DEPTH / 2 }

/-- Method `getRandomWalkablePosition(excludeRadius)`.  Calls `seedRandom`
(advancing the module-level counter) when a walkable cell exists. -/
def getRandomWalkablePosition (ρ : Nat → Rat) (excludeRadius : Rat)
    (s : MazeState) : Option Vec3 × MazeState :=
  let walkableCells := getAllWalkableCells s
  if walkableCells.length = 0 then
    (none, s)
  else
    let eligibleCells :=
      if excludeRadius > 0 then
        walkableCells.filter (fun cell =>
          let distFromEntrance :=
            |cell.1 - s.entrance.1| + |cell.2 - s.entrance.2|
          let distFromExit :=
            |cell.1 - s.exitCell.1| + |cell.2 - s.exitCell.2|
          decide ((distFromEntrance : Rat) > excludeRadius ∧
            (distFromExit : Rat) > excludeRadius))
      else walkableCells
    let eligibleCells :=
      if eligibleCells.length = 0 then walkableCells else eligibleCells
    if eligibleCells.length = 0 then
      (none, s)
    else
      let rs := seedRandom ρ s
      let randomIndex : Int :=
        min (Int.floor (rs.1 * (eligibleCells.length : Rat)))
          ((eligibleCells.length : Int) - 1)
      match jsGet eligibleCells randomIndex with
      | none => (none, rs.2)
      | some randomCell =>
        (some (getCellCenter rs.2 randomCell.1 randomCell.2), rs.2)

/-- Number of iterations of `addExtraConnections`:
`Math.floor(totalCells * 0.1)` with `totalCells = MAZE_SIZE * MAZE_SIZE`. -/
def connectionsToAdd : Nat :=
  (Int.floor ((MAZE_SIZE * MAZE_SIZE : Rat) * (1 / 10))).toNat

/-- One iteration of the loop body of `addExtraConnections()`. -/
def extraStep (ρ : Nat → Rat) (s : MazeState) : MazeState :=
  let r1 := seedRandom ρ s
  let x : Int := Int.floor (r1.1 * (MAZE_SIZE : Rat))
  let r2 := seedRandom ρ r1.2
  let y : Int := Int.floor (r2.1 * (MAZE_SIZE : Rat))
  let s := r2.2
  if ¬ isValidCell x y then s
  else
    let r3 := seedRandom ρ s
    let dirIndex : Int := Int.floor (r3.1 * (DIRECTIONS.length : Rat))
    let s := r3.2
    match jsGet DIRECTIONS dirIndex with
    | none => s
    | some dir =>
      let nextX := x + dir.x
      let nextY := y + dir.y
      if isValidCell nextX nextY then
        match getCell s.grid x y, getCell s.grid nextX nextY with
        | some _, some _ =>
          { s with grid := (removeWall (removeWall s.grid x y dir.wall)
              nextX nextY dir.opposite) }
        | _, _ => s
      else s

/-- Method `addExtraConnections()`. -/
def addExtraConnections (ρ : Nat → Rat) (s : MazeState) : MazeState :=
  (List.range connectionsToAdd).foldl (fun s _ => extraStep ρ s) s

/-- One iteration of `addRandomPaths`.  It draws from the UNSEEDED
`Math.random()`, abstracted as a separate stream `μ` with its own counter
`k` (threaded through the iterations).  Note the source's fourth branch:
it removes `cell.walls.left` and then `cellLeft.walls.left` (not
`cellLeft.walls.right`). -/
def randomPathStep (μ : Nat → Rat) (k : Nat) (g : Grid) : Nat × Grid :=
  let row : Int := Int.floor (μ k * ((MAZE_SIZE : Rat) - 1))
  let col : Int := Int.floor (μ (k + 1) * ((MAZE_SIZE : Rat) - 1))
  match getCell g col row with
  | none => (k + 2, g)
  | some _ =>
    let wallToRemove : Int := Int.floor (μ (k + 2) * 4)
    let k := k + 3
    if wallToRemove = 0 ∧ row > 0 then
      let g := removeWall g col row WallDir.top
      match getCell g col (row - 1) with
      | some _ => (k, removeWall g col (row - 1) WallDir.bottom)
      | none => (k, g)
    else if wallToRemove = 1 ∧ col < MAZE_SIZE - 1 then
      let g := removeWall g col row WallDir.right
      match getCell g (col + 1) row with
      | some _ => (k, removeWall g (col + 1) row WallDir.left)
      | none => (k, g)
    else if wallToRemove = 2 ∧ row < MAZE_SIZE - 1 then
      let g := removeWall g col row WallDir.bottom
      match getCell g col (row + 1) with
      | some _ => (k, removeWall g col (row + 1) WallDir.top)
      | none => (k, g)
    else if wallToRemove = 3 ∧ col > 0 then
      let g := removeWall g col row WallDir.left
      match getCell g (col - 1) row with
      | some _ => (k, removeWall g (col - 1) row WallDir.left)
      | none => (k, g)
    else (k, g)

/-- Method `addRandomPaths(count)` (driven by unseeded `Math.random()`,
stream `μ` starting at counter `k`). -/
def addRandomPaths (μ : Nat → Rat) (k : Nat) (count : Nat)
    (s : MazeState) : MazeState :=
  let res := (List.range count).foldl
    (fun kg _ => randomPathStep μ kg.1 kg.2) (k, s.grid)
  { s with grid := res.2 }

/-- One row-iteration of the zig-zag loop of `createPatternMaze()`:
takes the row index and the running `currentCol`, returns the updated
column and grid. -/
def patternRowStep (g : Grid) (row : Int) (currentCol : Int) :
    Int × Grid :=
  match getCell g currentCol row with
  | none => (currentCol, g)
  | some _ =>
    let g := setVisited g currentCol row
    let nextCol : Int :=
      if row % 2 = 0 then min (currentCol + 1) (MAZE_SIZE - 1)
      else max (currentCol - 1) 0
    let g :=
      if nextCol > currentCol then
        let g := removeWall g currentCol row WallDir.right
        match getCell g nextCol row with
        | some _ => removeWall g nextCol row WallDir.left
        | none => g
      else if nextCol < currentCol then
        let g := removeWall g currentCol row WallDir.left
        match getCell g nextCol row with
        | some _ => removeWall g nextCol row WallDir.right
        | none => g
      else g
    let g := removeWall g currentCol row WallDir.bottom
    let g :=
      match getCell g currentCol (row + 1) with
      | some _ => removeWall g currentCol (row + 1) WallDir.top
      | none => g
    (nextCol, g)

/-- One step of the final-row connection loop of `createPatternMaze()`. -/
def patternConnectStep (g : Grid) (lastRow : Int) (direction : Int)
    (col : Int) : Grid :=
  match getCell g col lastRow with
  | none => g
  | some _ =>
    let g := setVisited g col lastRow
    if direction > 0 then
      let g := removeWall g col lastRow WallDir.right
      match getCell g (col + direction) lastRow with
      | some _ => removeWall g (col + direction) lastRow WallDir.left
      | none => g
    else
      let g := removeWall g col lastRow WallDir.left
      match getCell g (col + direction) lastRow with
      | some _ => removeWall g (col + direction) lastRow WallDir.right
      | none => g

/-- Method `createPatternMaze()`. -/
def createPatternMaze (s : MazeState) : MazeState :=
  let entranceCol : Int := Int.floor ((MAZE_SIZE : Rat) / 2)
  let exitCol : Int := Int.floor ((MAZE_SIZE : Rat) / 2)
  let res := (List.range (MAZE_SIZE.toNat - 1)).foldl
    (fun cg row => patternRowStep cg.2 (row : Int) cg.1)
    (entranceCol, s.grid)
  let currentCol := res.1
  let g := res.2
  let lastRow : Int := MAZE_SIZE - 1
  if currentCol ≠ exitCol then
    let direction : Int := if currentCol < exitCol then 1 else -1
    let g := (List.range (currentCol - exitCol).natAbs).foldl
      (fun g i => patternConnectStep g lastRow direction
        (currentCol + direction * (i : Int))) g
    { s with grid := g }
  else { s with grid := g }

/-- Method `hasPathToExit()`. -/
def hasPathToExit (s : MazeState) : Bool :=
  if isValidCell s.exitCell.1 s.exitCell.2 then
    match getCell s.grid s.exitCell.1 s.exitCell.2 with
    | some c => c.visited
    | none => false
  else false

/-- The `while` loop of `createPathToExit`, walking from `(x, y)` toward
the exit `(ex, ey)`: the row (`yDiff = ey - y`) offset is closed first,
then the column (`xDiff = ex - x`) offset, matching the source's
`Math.abs(yDiff) > 0` / `yDiff > 0` cascade. -/
def pathLoop (ex ey : Int) (x y : Int) (g : Grid) : Grid :=
  if x = ex ∧ y = ey then g
  else
    match getCell g x y with
    | none => g
    | some _ =>
      match hy : decide (0 < |ey - y|) with
      | true =>
        match hyy : decide (0 < ey - y) with
        | true =>
          match getCell (setVisited g x y) x (y + 1) with
          | none => setVisited g x y
          | some _ =>
            pathLoop ex ey x (y + 1)
              (removeWall (removeWall (setVisited g x y) x y WallDir.bottom)
                x (y + 1) WallDir.top)
        | false =>
          match getCell (setVisited g x y) x (y - 1) with
          | none => setVisited g x y
          | some _ =>
            pathLoop ex ey x (y - 1)
              (removeWall (removeWall (setVisited g x y) x y WallDir.top)
                x (y - 1) WallDir.bottom)
      | false =>
        match hx : decide (0 < |ex - x|) with
        | true =>
          match hxx : decide (0 < ex - x) with
          | true =>
            match getCell (setVisited g x y) (x + 1) y with
            | none => setVisited g x y
            | some _ =>
              pathLoop ex ey (x + 1) y
                (removeWall (removeWall (setVisited g x y) x y WallDir.right)
                  (x + 1) y WallDir.left)
          | false =>
            match getCell (setVisited g x y) (x - 1) y with
            | none => setVisited g x y
            | some _ =>
              pathLoop ex ey (x - 1) y
                (removeWall (removeWall (setVisited g x y) x y WallDir.left)
                  (x - 1) y WallDir.right)
        | false => setVisited g x y
termination_by (ex - x).natAbs + (ey - y).natAbs
decreasing_by
  all_goals
    simp only [decide_eq_true_eq, decide_eq_false_iff_not, abs_pos,
      not_lt, not_not] at * <;> omega

/-- The tail of `createPathToExit`: mark the exit cell visited (guarded
access `this.grid[this.exit.y]?.[this.exit.x]`). -/
def markExitVisited (s : MazeState) : MazeState :=
  match getCell s.grid s.exitCell.1 s.exitCell.2 with
  | some _ =>
    { s with grid := setVisited s.grid s.exitCell.1 s.exitCell.2 }
  | none => s

/-- Method `createPathToExit(x, y)`: run the walk, then mark the exit
cell visited. -/
def createPathToExit (x y : Int) (s : MazeState) : MazeState :=
  markExitVisited
    { s with grid := pathLoop s.exitCell.1 s.exitCell.2 x y s.grid }

/-- The row-major scan list of `connectToExit`: `y` outer, `x` inner. -/
def scanCells : List (Int × Int) :=
  (List.range MAZE_SIZE.toNat).flatMap (fun y =>
    (List.range MAZE_SIZE.toNat).map (fun x =>
      (Int.ofNat x, Int.ofNat y)))

/-- One step of the closest-cell scan of `connectToExit()`: keep the
first visited cell realizing the strictly smallest Manhattan distance
to the exit. -/
def scanStep (s : MazeState) (acc : Option (Int × Int × Int))
    (p : Int × Int) : Option (Int × Int × Int) :=
  match (if isValidCell p.1 p.2 then getCell s.grid p.1 p.2 else none) with
  | none => acc
  | some c =>
    if c.visited then
      let distance := |p.1 - s.exitCell.1| + |p.2 - s.exitCell.2|
      match acc with
      | none => some (p.1, p.2, distance)
      | some best =>
        if distance < best.2.2 then some (p.1, p.2, distance) else acc
    else acc

/-- The scan of `connectToExit()` over the whole grid. -/
def closestVisitedToExit (s : MazeState) : Option (Int × Int × Int) :=
  scanCells.foldl (scanStep s) none

/-- Method `connectToExit()`. -/
def connectToExit (s : MazeState) : MazeState :=
  match closestVisitedToExit s with
  | none => s
  | some closest => createPathToExit closest.1 closest.2.1 s

/-- The trailing check of each DFS loop iteration:
`if (stack.length === 0 && !this.hasPathToExit()) this.connectToExit()`. -/
def checkExitRepair (s : MazeState) (stack : List (Int × Int)) :
    MazeState × List (Int × Int) :=
  if stack.length = 0 ∧ hasPathToExit s = false then
    (connectToExit s, stack)
  else (s, stack)

/-- The unvisited-neighbour candidate list of one DFS iteration, in the
fixed `DIRECTIONS` enumeration order, with the direction index. -/
def neighborCandidates (g : Grid) (x y : Int) :
    List (Int × Int × Nat) :=
  (List.range DIRECTIONS.length).filterMap (fun dirIndex =>
    match DIRECTIONS.get? dirIndex with
    | none => none
    | some dir =>
      let newX := x + dir.x
      let newY := y + dir.y
      if isValidCell newX newY then
        match getCell g newX newY with
        | some neighborCell =>
          if neighborCell.visited then none
          else some (newX, newY, dirIndex)
        | none => none
      else none)

/-- One iteration of the DFS `while` loop (stack top = list head). -/
def dfsIter (ρ : Nat → Rat) (s : MazeState)
    (stack : List (Int × Int)) : MazeState × List (Int × Int) :=
  match stack with
  | [] => (s, stack)
  | (x, y) :: rest =>
    let neighbors := neighborCandidates s.grid x y
    if 0 < neighbors.length then
      let rs := seedRandom ρ s
      let s := rs.2
      let neighborIndex : Int :=
        Int.floor (rs.1 * (neighbors.length : Rat))
      match jsGet neighbors neighborIndex with
      | none => (s, stack)
      | some neighbor =>
        match jsGet DIRECTIONS (neighbor.2.2 : Int) with
        | none => (s, stack)
        | some dir =>
          match getCell s.grid x y, getCell s.grid neighbor.1 neighbor.2.1 with
          | some _, some _ =>
            let g := removeWall s.grid x y dir.wall
            let g := removeWall g neighbor.1 neighbor.2.1 dir.opposite
            let g := setVisited g neighbor.1 neighbor.2.1
            checkExitRepair { s with grid := g }
              ((neighbor.1, neighbor.2.1) :: (x, y) :: rest)
          | _, _ => (s, stack)
    else
      checkExitRepair s rest

/-- The DFS `while (stack.length > 0)` loop, with explicit fuel. -/
def dfsLoop (ρ : Nat → Rat) : Nat → MazeState → List (Int × Int) →
    MazeState × List (Int × Int)
  | 0, s, stack => (s, stack)
  | Nat.succ fuel, s, stack =>
    if 0 < stack.length then
      let ss := dfsIter ρ s stack
      dfsLoop ρ fuel ss.1 ss.2
    else (s, stack)

/-- Fuel used by the embedding for the DFS loop; the proofs show at most
`2 * 50 * 50` iterations can occur, so this fuel is never exhausted. -/
def dfsFuel : Nat := 2 * MAZE_SIZE.toNat * MAZE_SIZE.toNat + 2

/-- Method `depthFirstSearch(startX, startY)`. -/
def depthFirstSearch (ρ : Nat → Rat) (startX startY : Int)
    (s : MazeState) : MazeState :=
  if ¬ isValidCell startX startY then s
  else
    match getCell s.grid startX startY with
    | none => s
    | some _ =>
      (dfsLoop ρ dfsFuel { s with grid := setVisited s.grid startX startY }
        [(startX, startY)]).1

/-- Method `generateMaze()`: reset the seed counter and the grid, open the
entrance, place the exit, carve, open the exit, inject loops. -/
def generateMaze (ρ : Nat → Rat) (s : MazeState) : MazeState :=
  let s := { s with currentSeed := FIXED_SEED }
  let startX : Int := Int.floor ((MAZE_SIZE : Rat) / 2)
  let startY : Int := 0
  let s := { s with entrance := (startX, startY) }
  let s := { s with grid := initializeGrid }
  let s :=
    if 0 ≤ startY ∧ startY < MAZE_SIZE ∧ 0 ≤ startX ∧ startX < MAZE_SIZE then
      match getCell s.grid startX startY with
      | some _ => { s with grid := removeWall s.grid startX startY WallDir.top }
      | none => s
    else s
  let exitX : Int := Int.floor ((MAZE_SIZE : Rat) / 2)
  let exitY : Int := MAZE_SIZE - 1
  let s := { s with exitCell := (exitX, exitY) }
  let s := depthFirstSearch ρ startX startY s
  let s :=
    if 0 ≤ exitY ∧ exitY < MAZE_SIZE ∧ 0 ≤ exitX ∧ exitX < MAZE_SIZE then
      match getCell s.grid exitX exitY with
      | some _ => { s with grid := removeWall s.grid exitX exitY WallDir.bottom }
      | none => s
    else s
  addExtraConnections ρ s

/-! ### Auxiliary definitions used by the verification (spec side) -/

/-- Propositional form of `isValidCell`. -/
def validP (x y : Int) : Prop :=
  0 ≤ x ∧ x < MAZE_SIZE ∧ 0 ≤ y ∧ y < MAZE_SIZE

instance (x y : Int) : Decidable (validP x y) := by
  unfold validP; infer_instance

/-- The in-bounds coordinates as a finite set. -/
def cellFinset : Finset (Int × Int) :=
  Finset.Icc 0 (MAZE_SIZE - 1) ×ˢ Finset.Icc 0 (MAZE_SIZE - 1)

/-- Number of in-bounds cells still unvisited: the termination measure of
the carving loop decreases with it. -/
def unvisitedCount (g : Grid) : Nat :=
  (cellFinset.filter (fun p => ¬((g p.1 p.2).visited = true))).card

/-- Termination measure of the DFS loop: each iteration either pops
(`-1`) or marks a new cell visited and pushes (`-2 + 1`). -/
def dfsMeasure (g : Grid) (stack : List (Int × Int)) : Nat :=
  2 * unvisitedCount g + stack.length

/-- All in-bounds neighbours of a visited cell are visited. -/
def closedAt (g : Grid) (x y : Int) : Prop :=
  (validP x (y - 1) → ((g x (y - 1)).visited = true)) ∧
  (validP (x + 1) y → ((g (x + 1) y).visited = true)) ∧
  (validP x (y + 1) → ((g x (y + 1)).visited = true)) ∧
  (validP (x - 1) y → ((g (x - 1) y).visited = true))

/-- Invariant of the DFS loop, relative to the designated start cell
`(sx, sy)`: stack entries are valid and visited; every visited cell is
on the stack or closed; the start is valid and visited. -/
def dfsInv (s : MazeState) (stack : List (Int × Int))
    (sx sy : Int) : Prop :=
  (∀ p ∈ stack, validP p.1 p.2 ∧ ((s.grid p.1 p.2).visited = true)) ∧
  (∀ x y : Int, validP x y → ((s.grid x y).visited = true) →
    (x, y) ∈ stack ∨ closedAt s.grid x y) ∧
  (validP sx sy ∧ ((s.grid sx sy).visited = true))

/-- Scan (row-major) order used by the `connectToExit` grid scan:
`(x, y)` comes no later than `(x2, y2)`. -/
def rowMajorLe (p q : Int × Int) : Prop :=
  p.2 < q.2 ∨ (p.2 = q.2 ∧ p.1 ≤ q.1)

/-- Strict row-major order. -/
def rowMajorLt (p q : Int × Int) : Prop :=
  p.2 < q.2 ∨ (p.2 = q.2 ∧ p.1 < q.1)

/-- Membership in the L-shaped corridor carved by `createPathToExit`
from `(x, y)` to `(ex, ey)`: first the vertical segment in column `x`,
then the horizontal segment in row `ey`. -/
def onRepairPath (x y ex ey a b : Int) : Prop :=
  (a = x ∧ min y ey ≤ b ∧ b ≤ max y ey) ∨
  (b = ey ∧ min x ex ≤ a ∧ a ≤ max x ex)

/-- The state on which `generateMaze` invokes the DFS: freshly
initialized grid with the entrance's top wall removed, entrance and exit
coordinates set, seed counter reset; `p` is the (irrelevant) cached
entrance world position carried along. -/
def dfsStartState (p : Vec3) : MazeState :=
  { grid := removeWall initializeGrid 25 0 WallDir.top
    entrance := (25, 0)
    exitCell := (25, MAZE_SIZE - 1)
    entranceWorldPosition := p
    currentSeed := FIXED_SEED }

/-- Manhattan distance from a cell to the exit, as computed by the
`connectToExit` scan. -/
def exitDist (s : MazeState) (p : Int × Int) : Int :=
  |p.1 - s.exitCell.1| + |p.2 - s.exitCell.2|

/-- A cell is in bounds and visited ("valid and visited"). -/
def vvP (s : MazeState) (p : Int × Int) : Prop :=
  validP p.1 p.2 ∧ (s.grid p.1 p.2).visited = true

/-- A concrete state whose exit cell is visited. -/
def exitVisitedState : MazeState :=
  { grid := setVisited initializeGrid 0 0
    entrance := (25, 0)
    exitCell := (0, 0)
    entranceWorldPosition := ⟨0, 1, 0⟩
    currentSeed := FIXED_SEED }

/-- The all-zeros PRNG stream, used to instantiate hypotheses in witness
statements. -/
def zeroStream : Nat → Rat := fun _ => 0

/-- A concrete `Math.random()` stream for exercising `addRandomPaths`:
draws row `0`, column `1`, wall index `3`. -/
def bugStream : Nat → Rat :=
  fun n => if n = 0 then 0 else if n = 1 then 1 / 49 else 3 / 4

/-- A concrete state with exactly one visited cell `(0, 0)` and the
generated maze's entrance/exit coordinates. -/
def oneVisitedState : MazeState :=
  { grid := setVisited initializeGrid 0 0
    entrance := (25, 0)
    exitCell := (25, 49)
    entranceWorldPosition := ⟨0, 1, 0⟩
    currentSeed := FIXED_SEED }

/-- Visited flags only ever turn on: `g ≤ g'` on the visited field. -/
def visitedLe (g g' : Grid) : Prop :=
  ∀ a b : Int, (g a b).visited = true → (g' a b).visited = true

/-- Walls only ever get removed: any wall present in `g'` was present
in `g`. -/
def wallsGe (g g' : Grid) : Prop :=
  ∀ (a b : Int) (w : WallDir),
    ((g' a b).walls.get w = true) → ((g a b).walls.get w = true)

/-- Both monotonicity facts bundled. -/
def gridEvol (g g' : Grid) : Prop := visitedLe g g' ∧ wallsGe g g'

/-- The operation `t` came from `s` without touching entrance or exit. -/
def framePres (s t : MazeState) : Prop :=
  t.entrance = s.entrance ∧ t.exitCell = s.exitCell

instance (s : MazeState) (p : Int × Int) : Decidable (vvP s p) := by
  unfold vvP; infer_instance

/-! ### Basic facts about the grid embedding -/

theorem isValidCell_iff {x y : Int} : isValidCell x y = true ↔ validP x y := by
  simp [isValidCell, validP]

theorem getCell_eq_some {g : Grid} {x y : Int} (h : validP x y) :
    getCell g x y = some (g x y) := by
  simp [getCell, isValidCell_iff.mpr h]

theorem getCell_isSome_iff {g : Grid} {x y : Int} :
    (getCell g x y).isSome ↔ validP x y := by
  unfold getCell
  by_cases h : validP x y
  · simp [isValidCell_iff.mpr h, h]
  · rw [if_neg]
    · simpa using h
    · simpa [isValidCell_iff] using h

theorem updateCell_apply (g : Grid) (x y : Int) (f : Cell → Cell)
    (a b : Int) :
    updateCell g x y f a b =
      if a = x ∧ b = y then f (g a b) else g a b := rfl

theorem setVisited_visited (g : Grid) (x y a b : Int) :
    ((setVisited g x y) a b).visited =
      if a = x ∧ b = y then true else (g a b).visited := by
  unfold setVisited
  rw [updateCell_apply]
  split <;> rfl

theorem setVisited_visited_self (g : Grid) (x y : Int) :
    ((setVisited g x y) x y).visited = true := by
  rw [setVisited_visited]; simp

theorem setVisited_visited_other (g : Grid) {x y a b : Int}
    (h : ¬(a = x ∧ b = y)) :
    ((setVisited g x y) a b).visited = (g a b).visited := by
  rw [setVisited_visited, if_neg h]

theorem setVisited_walls (g : Grid) (x y a b : Int) :
    ((setVisited g x y) a b).walls = (g a b).walls := by
  unfold setVisited
  rw [updateCell_apply]
  split <;> rfl

theorem removeWall_visited (g : Grid) (x y : Int) (w : WallDir)
    (a b : Int) :
    ((removeWall g x y w) a b).visited = (g a b).visited := by
  unfold removeWall
  rw [updateCell_apply]
  split <;> rfl

theorem removeWall_walls (g : Grid) (x y : Int) (w : WallDir)
    (a b : Int) :
    ((removeWall g x y w) a b).walls =
      if a = x ∧ b = y then ((g a b).walls.set w false)
      else (g a b).walls := by
  unfold removeWall
  rw [updateCell_apply]
  split <;> rfl

theorem Walls.get_set_false (w : Walls) (u v : WallDir) :
    (w.set u false).get v = if v = u then false else w.get v := by
  cases u <;> cases v <;> simp [Walls.set, Walls.get]

theorem visitedLe_refl (g : Grid) : visitedLe g g := fun _ _ h => h

theorem visitedLe_trans {g1 g2 g3 : Grid} (h12 : visitedLe g1 g2)
    (h23 : visitedLe g2 g3) : visitedLe g1 g3 :=
  fun a b h => h23 a b (h12 a b h)

theorem wallsGe_refl (g : Grid) : wallsGe g g := fun _ _ _ h => h

theorem wallsGe_trans {g1 g2 g3 : Grid} (h12 : wallsGe g1 g2)
    (h23 : wallsGe g2 g3) : wallsGe g1 g3 :=
  fun a b w h => h12 a b w (h23 a b w h)

theorem visitedLe_setVisited (g : Grid) (x y : Int) :
    visitedLe g (setVisited g x y) := by
  intro a b h
  rw [setVisited_visited]
  split <;> simp [h]

theorem visitedLe_removeWall (g : Grid) (x y : Int) (w : WallDir) :
    visitedLe g (removeWall g x y w) := by
  intro a b h
  rw [removeWall_visited]; exact h

theorem wallsGe_setVisited (g : Grid) (x y : Int) :
    wallsGe g (setVisited g x y) := by
  intro a b w h
  rwa [setVisited_walls] at h

theorem wallsGe_removeWall (g : Grid) (x y : Int) (w : WallDir) :
    wallsGe g (removeWall g x y w) := by
  intro a b v h
  rw [removeWall_walls] at h
  by_cases hc : a = x ∧ b = y
  · rw [if_pos hc, Walls.get_set_false] at h
    split at h
    · exact absurd h (by simp)
    · exact h
  · rwa [if_neg hc] at h

/-- A wall, once absent, stays absent under any walls-removing
evolution. -/
theorem wallsGe_false {g g' : Grid} (h : wallsGe g g') {a b : Int}
    {w : WallDir} (hw : (g a b).walls.get w = false) :
    (g' a b).walls.get w = false := by
  by_contra hne
  have : (g' a b).walls.get w = true := by
    cases hgw : (g' a b).walls.get w
    · exact absurd hgw hne
    · rfl
  have := h a b w this
  rw [hw] at this
  exact absurd this (by simp)

/-! ### Monotone evolution: visited flags only turn on, walls only come
down, across every pipeline operation -/

theorem gridEvol_refl (g : Grid) : gridEvol g g :=
  ⟨visitedLe_refl g, wallsGe_refl g⟩

theorem gridEvol_trans {g1 g2 g3 : Grid} (h12 : gridEvol g1 g2)
    (h23 : gridEvol g2 g3) : gridEvol g1 g3 :=
  ⟨visitedLe_trans h12.1 h23.1, wallsGe_trans h12.2 h23.2⟩

theorem gridEvol_setVisited (g : Grid) (x y : Int) :
    gridEvol g (setVisited g x y) :=
  ⟨visitedLe_setVisited g x y, wallsGe_setVisited g x y⟩

theorem gridEvol_removeWall (g : Grid) (x y : Int) (w : WallDir) :
    gridEvol g (removeWall g x y w) :=
  ⟨visitedLe_removeWall g x y w, wallsGe_removeWall g x y w⟩

theorem gridEvol_pathLoop (ex ey x y : Int) (g : Grid) :
    gridEvol g (pathLoop ex ey x y g) := by
  induction x, y, g using pathLoop.induct ex ey with
  | case1 x y g h =>
    unfold pathLoop
    rw [if_pos h]
    exact gridEvol_refl g
  | case2 x y g h hnone =>
    unfold pathLoop
    rw [if_neg h]
    simp only [hnone]
    exact gridEvol_refl g
  | case3 x y g h val hval hy hyy hnone =>
    unfold pathLoop
    rw [if_neg h]
    simp only [hval]
    repeat' split
    all_goals try exact gridEvol_setVisited g x y
    all_goals exfalso
    all_goals simp_all
    all_goals omega
  | case4 x y g h val hval hy hyy val2 hval2 ih =>
    unfold pathLoop
    rw [if_neg h]
    simp only [hval]
    repeat' split
    all_goals try exact gridEvol_setVisited g x y
    all_goals try exact gridEvol_trans (gridEvol_trans (gridEvol_trans
      (gridEvol_setVisited _ _ _) (gridEvol_removeWall _ _ _ _))
      (gridEvol_removeWall _ _ _ _)) ih
    all_goals exfalso
    all_goals simp_all
    all_goals omega
  | case5 x y g h val hval hy hyy hnone =>
    unfold pathLoop
    rw [if_neg h]
    simp only [hval]
    repeat' split
    all_goals try exact gridEvol_setVisited g x y
    all_goals exfalso
    all_goals simp_all
    all_goals omega
  | case6 x y g h val hval hy hyy val2 hval2 ih =>
    unfold pathLoop
    rw [if_neg h]
    simp only [hval]
    repeat' split
    all_goals try exact gridEvol_setVisited g x y
    all_goals try exact gridEvol_trans (gridEvol_trans (gridEvol_trans
      (gridEvol_setVisited _ _ _) (gridEvol_removeWall _ _ _ _))
      (gridEvol_removeWall _ _ _ _)) ih
    all_goals exfalso
    all_goals simp_all
    all_goals omega
  | case7 x y g h val hval hy hx hxx hnone =>
    unfold pathLoop
    rw [if_neg h]
    simp only [hval]
    repeat' split
    all_goals try exact gridEvol_setVisited g x y
    all_goals exfalso
    all_goals simp_all
    all_goals omega
  | case8 x y g h val hval hy hx hxx val2 hval2 ih =>
    unfold pathLoop
    rw [if_neg h]
    simp only [hval]
    repeat' split
    all_goals try exact gridEvol_setVisited g x y
    all_goals try exact gridEvol_trans (gridEvol_trans (gridEvol_trans
      (gridEvol_setVisited _ _ _) (gridEvol_removeWall _ _ _ _))
      (gridEvol_removeWall _ _ _ _)) ih
    all_goals exfalso
    all_goals simp_all
    all_goals omega
  | case9 x y g h val hval hy hx hxx hnone =>
    unfold pathLoop
    rw [if_neg h]
    simp only [hval]
    repeat' split
    all_goals try exact gridEvol_setVisited g x y
    all_goals exfalso
    all_goals simp_all
    all_goals omega
  | case10 x y g h val hval hy hx hxx val2 hval2 ih =>
    unfold pathLoop
    rw [if_neg h]
    simp only [hval]
    repeat' split
    all_goals try exact gridEvol_setVisited g x y
    all_goals try exact gridEvol_trans (gridEvol_trans (gridEvol_trans
      (gridEvol_setVisited _ _ _) (gridEvol_removeWall _ _ _ _))
      (gridEvol_removeWall _ _ _ _)) ih
    all_goals exfalso
    all_goals simp_all
    all_goals omega
  | case11 x y g h val hval hy hx =>
    unfold pathLoop
    rw [if_neg h]
    simp only [hval]
    repeat' split
    all_goals try exact gridEvol_setVisited g x y
    all_goals exfalso
    all_goals simp_all
    all_goals omega

theorem gridEvol_markExitVisited (s : MazeState) :
    gridEvol s.grid (markExitVisited s).grid := by
  unfold markExitVisited
  split
  · exact gridEvol_setVisited _ _ _
  · exact gridEvol_refl _

theorem gridEvol_createPathToExit (x y : Int) (s : MazeState) :
    gridEvol s.grid (createPathToExit x y s).grid := by
  unfold createPathToExit
  exact gridEvol_trans
    (gridEvol_pathLoop s.exitCell.1 s.exitCell.2 x y s.grid)
    (gridEvol_markExitVisited
      { s with grid := pathLoop s.exitCell.1 s.exitCell.2 x y s.grid })

theorem gridEvol_connectToExit (s : MazeState) :
    gridEvol s.grid (connectToExit s).grid := by
  unfold connectToExit
  split
  · exact gridEvol_refl _
  · exact gridEvol_createPathToExit _ _ _

theorem gridEvol_checkExitRepair (s : MazeState) (st : List (Int × Int)) :
    gridEvol s.grid (checkExitRepair s st).1.grid := by
  unfold checkExitRepair
  split
  · exact gridEvol_connectToExit s
  · exact gridEvol_refl _

theorem checkExitRepair_stack (s : MazeState) (st : List (Int × Int)) :
    (checkExitRepair s st).2 = st := by
  unfold checkExitRepair
  split <;> rfl

theorem gridEvol_dfsIter (ρ : Nat → Rat) (s : MazeState)
    (stack : List (Int × Int)) :
    gridEvol s.grid (dfsIter ρ s stack).1.grid := by
  unfold dfsIter
  match stack with
  | [] => exact gridEvol_refl _
  | (x, y) :: rest =>
    dsimp only [seedRandom]
    split
    · split
      · exact gridEvol_refl _
      · split
        · exact gridEvol_refl _
        · split
          · refine gridEvol_trans ?_ (gridEvol_checkExitRepair _ _)
            dsimp only
            exact gridEvol_trans (gridEvol_trans
              (gridEvol_removeWall _ _ _ _) (gridEvol_removeWall _ _ _ _))
              (gridEvol_setVisited _ _ _)
          · exact gridEvol_refl _
    · exact gridEvol_checkExitRepair _ _

theorem gridEvol_dfsLoop (ρ : Nat → Rat) (fuel : Nat) (s : MazeState)
    (stack : List (Int × Int)) :
    gridEvol s.grid (dfsLoop ρ fuel s stack).1.grid := by
  induction fuel generalizing s stack with
  | zero => exact gridEvol_refl _
  | succ fuel ih =>
    unfold dfsLoop
    split
    · exact gridEvol_trans (gridEvol_dfsIter ρ s stack) (ih _ _)
    · exact gridEvol_refl _

theorem gridEvol_depthFirstSearch (ρ : Nat → Rat) (sx sy : Int)
    (s : MazeState) :
    gridEvol s.grid (depthFirstSearch ρ sx sy s).grid := by
  unfold depthFirstSearch
  split
  · exact gridEvol_refl _
  · split
    · exact gridEvol_refl _
    · exact gridEvol_trans (gridEvol_setVisited _ _ _)
        (gridEvol_dfsLoop _ _
          { s with grid := setVisited s.grid sx sy } _)

theorem gridEvol_extraStep (ρ : Nat → Rat) (s : MazeState) :
    gridEvol s.grid (extraStep ρ s).grid := by
  unfold extraStep
  dsimp only [seedRandom]
  split
  · exact gridEvol_refl _
  · split
    · exact gridEvol_refl _
    · split
      · split
        · exact gridEvol_trans (gridEvol_removeWall _ _ _ _)
            (gridEvol_removeWall _ _ _ _)
        · exact gridEvol_refl _
      · exact gridEvol_refl _

theorem gridEvol_addExtraConnections (ρ : Nat → Rat) (s : MazeState) :
    gridEvol s.grid (addExtraConnections ρ s).grid := by
  unfold addExtraConnections
  generalize List.range connectionsToAdd = l
  induction l generalizing s with
  | nil => exact gridEvol_refl _
  | cons a l ih =>
    exact gridEvol_trans (gridEvol_extraStep ρ s) (ih _)

/-! ### The pipeline never reads `entranceWorldPosition`: every build step
commutes with overwriting that field, and preserves the entrance and exit
coordinates.  This is what makes two builds agree on the grid regardless
of the rest of the incoming state. -/

theorem markExitVisited_ewp (g : Grid) (e ex : Int × Int) (p q : Vec3)
    (c : Nat) :
    markExitVisited ⟨g, e, ex, p, c⟩ =
      { markExitVisited ⟨g, e, ex, q, c⟩ with entranceWorldPosition := p } := by
  unfold markExitVisited
  dsimp only
  split <;> rfl

theorem createPathToExit_ewp (x y : Int) (g : Grid) (e ex : Int × Int)
    (p q : Vec3) (c : Nat) :
    createPathToExit x y ⟨g, e, ex, p, c⟩ =
      { createPathToExit x y ⟨g, e, ex, q, c⟩ with
        entranceWorldPosition := p } := by
  unfold createPathToExit
  dsimp only
  exact markExitVisited_ewp _ _ _ _ _ _

theorem closestVisitedToExit_ewp (g : Grid) (e ex : Int × Int)
    (p q : Vec3) (c : Nat) :
    closestVisitedToExit ⟨g, e, ex, p, c⟩ =
      closestVisitedToExit ⟨g, e, ex, q, c⟩ := rfl

theorem connectToExit_ewp (g : Grid) (e ex : Int × Int) (p q : Vec3)
    (c : Nat) :
    connectToExit ⟨g, e, ex, p, c⟩ =
      { connectToExit ⟨g, e, ex, q, c⟩ with entranceWorldPosition := p } := by
  unfold connectToExit
  rw [closestVisitedToExit_ewp g e ex p q c]
  split <;> [rfl; exact createPathToExit_ewp _ _ _ _ _ _ _ _]

theorem hasPathToExit_ewp (g : Grid) (e ex : Int × Int) (p q : Vec3)
    (c : Nat) :
    hasPathToExit ⟨g, e, ex, p, c⟩ = hasPathToExit ⟨g, e, ex, q, c⟩ := rfl

theorem checkExitRepair_ewp (g : Grid) (e ex : Int × Int) (p q : Vec3)
    (c : Nat) (st : List (Int × Int)) :
    checkExitRepair ⟨g, e, ex, p, c⟩ st =
      ({ (checkExitRepair ⟨g, e, ex, q, c⟩ st).1 with
          entranceWorldPosition := p },
        (checkExitRepair ⟨g, e, ex, q, c⟩ st).2) := by
  unfold checkExitRepair
  rw [hasPathToExit_ewp g e ex p q c]
  split
  · dsimp only
    rw [connectToExit_ewp g e ex p q c]
  · rfl

theorem dfsIter_ewp (ρ : Nat → Rat) (g : Grid) (e ex : Int × Int)
    (p q : Vec3) (c : Nat) (stack : List (Int × Int)) :
    dfsIter ρ ⟨g, e, ex, p, c⟩ stack =
      ({ (dfsIter ρ ⟨g, e, ex, q, c⟩ stack).1 with
          entranceWorldPosition := p },
        (dfsIter ρ ⟨g, e, ex, q, c⟩ stack).2) := by
  unfold dfsIter
  match stack with
  | [] => rfl
  | (x, y) :: rest =>
    dsimp only [seedRandom]
    split
    · split
      · rfl
      · split
        · rfl
        · split
          · exact checkExitRepair_ewp _ _ _ _ _ _ _
          · rfl
    · exact checkExitRepair_ewp _ _ _ _ _ _ _

theorem dfsLoop_ewp (ρ : Nat → Rat) (fuel : Nat) (g : Grid)
    (e ex : Int × Int) (p q : Vec3) (c : Nat)
    (stack : List (Int × Int)) :
    dfsLoop ρ fuel ⟨g, e, ex, p, c⟩ stack =
      ({ (dfsLoop ρ fuel ⟨g, e, ex, q, c⟩ stack).1 with
          entranceWorldPosition := p },
        (dfsLoop ρ fuel ⟨g, e, ex, q, c⟩ stack).2) := by
  induction fuel generalizing g e ex q c stack with
  | zero => rfl
  | succ fuel ih =>
    unfold dfsLoop
    split
    · dsimp only
      rw [dfsIter_ewp ρ g e ex p q c]
      exact ih _ _ _ _ _ _
    · rfl

theorem depthFirstSearch_ewp (ρ : Nat → Rat) (sx sy : Int) (g : Grid)
    (e ex : Int × Int) (p q : Vec3) (c : Nat) :
    depthFirstSearch ρ sx sy ⟨g, e, ex, p, c⟩ =
      { depthFirstSearch ρ sx sy ⟨g, e, ex, q, c⟩ with
        entranceWorldPosition := p } := by
  unfold depthFirstSearch
  dsimp only
  split
  · rfl
  · split
    · rfl
    · rw [dfsLoop_ewp ρ dfsFuel (setVisited g sx sy) e ex p q c
        [(sx, sy)]]

theorem extraStep_ewp (ρ : Nat → Rat) (g : Grid) (e ex : Int × Int)
    (p q : Vec3) (c : Nat) :
    extraStep ρ ⟨g, e, ex, p, c⟩ =
      { extraStep ρ ⟨g, e, ex, q, c⟩ with entranceWorldPosition := p } := by
  unfold extraStep
  dsimp only [seedRandom]
  split
  · rfl
  · split
    · rfl
    · split
      · split <;> rfl
      · rfl

theorem addExtraConnections_ewp (ρ : Nat → Rat) (g : Grid)
    (e ex : Int × Int) (p q : Vec3) (c : Nat) :
    addExtraConnections ρ ⟨g, e, ex, p, c⟩ =
      { addExtraConnections ρ ⟨g, e, ex, q, c⟩ with
        entranceWorldPosition := p } := by
  unfold addExtraConnections
  generalize List.range connectionsToAdd = l
  induction l generalizing g e ex q c with
  | nil => rfl
  | cons a l ih =>
    dsimp only [List.foldl]
    rw [extraStep_ewp ρ g e ex p q c]
    exact ih _ _ _ _ _

theorem floor_half_MAZE_SIZE : (⌊(MAZE_SIZE : Rat) / 2⌋ : Int) = 25 := by
  norm_num [MAZE_SIZE]

/-- Every build resets the seed counter and the grid, so the resulting
grid is one fixed function of the PRNG stream, whatever state the
generator was in before the call. -/
theorem generateMaze_grid_const (ρ : Nat → Rat) (u : MazeState) :
    (generateMaze ρ u).grid = (generateMaze ρ constructorState).grid := by
  unfold generateMaze
  dsimp only
  rw [floor_half_MAZE_SIZE]
  simp only [if_pos (show (0:Int) ≤ 0 ∧ (0:Int) < MAZE_SIZE ∧ (0:Int) ≤ 25 ∧
    (25:Int) < MAZE_SIZE by decide),
    if_pos (show (0:Int) ≤ MAZE_SIZE - 1 ∧ MAZE_SIZE - 1 < MAZE_SIZE ∧
    (0:Int) ≤ 25 ∧ (25:Int) < MAZE_SIZE by decide),
    getCell_eq_some (show validP 25 0 by decide),
    getCell_eq_some (show validP 25 (MAZE_SIZE - 1) by decide)]
  rw [depthFirstSearch_ewp ρ 25 0 (removeWall initializeGrid 25 0
    WallDir.top) (25, 0) (25, MAZE_SIZE - 1) u.entranceWorldPosition
    constructorState.entranceWorldPosition FIXED_SEED]
  dsimp only
  rw [addExtraConnections_ewp ρ _ _ _ u.entranceWorldPosition
    constructorState.entranceWorldPosition _]
  rw [show (depthFirstSearch ρ 25 0 ⟨removeWall initializeGrid 25 0
      WallDir.top, (25, 0), (25, MAZE_SIZE - 1),
      constructorState.entranceWorldPosition,
      FIXED_SEED⟩).entranceWorldPosition =
      constructorState.entranceWorldPosition from by
    rw [depthFirstSearch_ewp ρ 25 0 (removeWall initializeGrid 25 0
      WallDir.top) (25, 0) (25, MAZE_SIZE - 1)
      constructorState.entranceWorldPosition
      constructorState.entranceWorldPosition FIXED_SEED]]

/-! ### Frame facts: the carve/repair/loop-injection steps never touch the
entrance and exit coordinates, and loop injection never touches a visited
flag -/

theorem framePres_refl (s : MazeState) : framePres s s := ⟨rfl, rfl⟩

theorem framePres_trans {s t u : MazeState} (h1 : framePres s t)
    (h2 : framePres t u) : framePres s u :=
  ⟨h2.1.trans h1.1, h2.2.trans h1.2⟩

theorem framePres_markExitVisited (s : MazeState) :
    framePres s (markExitVisited s) := by
  unfold markExitVisited
  split <;> exact ⟨rfl, rfl⟩

theorem framePres_createPathToExit (x y : Int) (s : MazeState) :
    framePres s (createPathToExit x y s) := by
  unfold createPathToExit
  exact framePres_markExitVisited _

theorem framePres_connectToExit (s : MazeState) :
    framePres s (connectToExit s) := by
  unfold connectToExit
  split
  · exact framePres_refl s
  · exact framePres_createPathToExit _ _ _

set_option maxRecDepth 4000 in
theorem framePres_checkExitRepair (s : MazeState)
    (st : List (Int × Int)) :
    framePres s (checkExitRepair s st).1 := by
  unfold checkExitRepair
  split
  · exact framePres_connectToExit s
  · exact framePres_refl s

theorem framePres_dfsIter (ρ : Nat → Rat) (s : MazeState)
    (stack : List (Int × Int)) :
    framePres s (dfsIter ρ s stack).1 := by
  unfold dfsIter
  match stack with
  | [] => exact framePres_refl s
  | (x, y) :: rest =>
    dsimp only [seedRandom]
    split
    · split
      · exact framePres_refl _
      · split
        · exact framePres_refl _
        · split
          · exact framePres_checkExitRepair _ _
          · exact framePres_refl _
    · exact framePres_checkExitRepair _ _

theorem framePres_dfsLoop (ρ : Nat → Rat) (fuel : Nat) (s : MazeState)
    (stack : List (Int × Int)) :
    framePres s (dfsLoop ρ fuel s stack).1 := by
  induction fuel generalizing s stack with
  | zero => exact framePres_refl s
  | succ fuel ih =>
    unfold dfsLoop
    split
    · exact framePres_trans (framePres_dfsIter ρ s stack) (ih _ _)
    · exact framePres_refl s

theorem framePres_depthFirstSearch (ρ : Nat → Rat) (sx sy : Int)
    (s : MazeState) :
    framePres s (depthFirstSearch ρ sx sy s) := by
  unfold depthFirstSearch
  split
  · exact framePres_refl s
  · split
    · exact framePres_refl s
    · exact framePres_dfsLoop ρ dfsFuel
        { s with grid := setVisited s.grid sx sy } [(sx, sy)]

theorem framePres_extraStep (ρ : Nat → Rat) (s : MazeState) :
    framePres s (extraStep ρ s) := by
  unfold extraStep
  dsimp only [seedRandom]
  split
  · exact framePres_refl _
  · split
    · exact framePres_refl _
    · split
      · split
        · exact framePres_refl _
        · exact framePres_refl _
      · exact framePres_refl _

theorem framePres_addExtraConnections (ρ : Nat → Rat) (s : MazeState) :
    framePres s (addExtraConnections ρ s) := by
  unfold addExtraConnections
  generalize List.range connectionsToAdd = l
  induction l generalizing s with
  | nil => exact framePres_refl s
  | cons a l ih =>
    exact framePres_trans (framePres_extraStep ρ s) (ih _)

theorem extraStep_visited_eq (ρ : Nat → Rat) (s : MazeState)
    (a b : Int) :
    ((extraStep ρ s).grid a b).visited = (s.grid a b).visited := by
  unfold extraStep
  dsimp only [seedRandom]
  split
  · rfl
  · split
    · rfl
    · split
      · split
        · dsimp only
          rw [removeWall_visited, removeWall_visited]
        · rfl
      · rfl

theorem addExtraConnections_visited_eq (ρ : Nat → Rat) (s : MazeState)
    (a b : Int) :
    ((addExtraConnections ρ s).grid a b).visited =
      (s.grid a b).visited := by
  unfold addExtraConnections
  generalize List.range connectionsToAdd = l
  induction l generalizing s with
  | nil => rfl
  | cons c l ih =>
    dsimp only [List.foldl]
    rw [ih (extraStep ρ s), extraStep_visited_eq]

/-! ### Counting unvisited cells, list indexing, and grid reachability -/

theorem mem_cellFinset {p : Int × Int} :
    p ∈ cellFinset ↔ validP p.1 p.2 := by
  unfold cellFinset validP
  rw [Finset.mem_product, Finset.mem_Icc, Finset.mem_Icc]
  omega

theorem unvisitedCount_congr {g g' : Grid}
    (h : ∀ a b : Int, (g' a b).visited = (g a b).visited) :
    unvisitedCount g' = unvisitedCount g := by
  unfold unvisitedCount
  congr 1
  apply Finset.filter_congr
  intro p _
  rw [h p.1 p.2]

theorem unvisitedCount_removeWall (g : Grid) (x y : Int) (w : WallDir) :
    unvisitedCount (removeWall g x y w) = unvisitedCount g :=
  unvisitedCount_congr (fun a b => removeWall_visited g x y w a b)

theorem unvisitedCount_setVisited {g : Grid} {x y : Int}
    (hv : validP x y) (hnv : (g x y).visited = false) :
    unvisitedCount (setVisited g x y) + 1 = unvisitedCount g := by
  unfold unvisitedCount
  have hmem : (x, y) ∈ cellFinset.filter
      (fun p => ¬((g p.1 p.2).visited = true)) := by
    rw [Finset.mem_filter]
    exact ⟨mem_cellFinset.mpr hv, by simp [hnv]⟩
  have hers : cellFinset.filter
      (fun p => ¬(((setVisited g x y) p.1 p.2).visited = true)) =
      (cellFinset.filter (fun p => ¬((g p.1 p.2).visited = true))).erase
        (x, y) := by
    ext p
    rw [Finset.mem_erase, Finset.mem_filter, Finset.mem_filter]
    constructor
    · intro ⟨hp, hnvp⟩
      by_cases hpe : p = (x, y)
      · exfalso
        apply hnvp
        subst hpe
        exact setVisited_visited_self g x y
      · refine ⟨hpe, hp, ?_⟩
        rwa [setVisited_visited_other g
          (by
            intro ⟨h1, h2⟩
            exact hpe (Prod.ext h1 h2))] at hnvp
    · intro ⟨hpe, hp, hnvp⟩
      refine ⟨hp, ?_⟩
      rwa [setVisited_visited_other g
        (by
          intro ⟨h1, h2⟩
          exact hpe (Prod.ext h1 h2))]
  rw [hers, Finset.card_erase_of_mem hmem]
  have : 0 < (cellFinset.filter
      (fun p => ¬((g p.1 p.2).visited = true))).card :=
    Finset.card_pos.mpr ⟨(x, y), hmem⟩
  omega

theorem unvisitedCount_zero {g : Grid} (h : unvisitedCount g = 0)
    {x y : Int} (hv : validP x y) : (g x y).visited = true := by
  unfold unvisitedCount at h
  rw [Finset.card_eq_zero, Finset.filter_eq_empty_iff] at h
  have := h ((@mem_cellFinset (x, y)).mpr hv)
  simpa using this

theorem jsGet_mem {α : Type} {l : List α} {i : Int} {a : α}
    (h : jsGet l i = some a) : a ∈ l := by
  unfold jsGet at h
  split at h
  · exact List.get?_mem h
  · exact absurd h (by simp)

theorem jsGet_eq_some {α : Type} {l : List α} {i : Int}
    (h0 : 0 ≤ i) (hl : i < l.length) :
    ∃ a, jsGet l i = some a ∧ a ∈ l := by
  unfold jsGet
  rw [if_pos h0]
  have hlt : i.toNat < l.length := by omega
  refine ⟨l.get ⟨i.toNat, hlt⟩, ?_, List.get_mem l i.toNat hlt⟩
  exact List.get?_eq_get hlt

theorem floor_mul_bounds {r : Rat} (h0 : 0 ≤ r) (h1 : r < 1)
    {n : Nat} (hn : 0 < n) :
    0 ≤ (⌊r * (n : Rat)⌋ : Int) ∧ (⌊r * (n : Rat)⌋ : Int) < (n : Int) := by
  constructor
  · apply Int.floor_nonneg.mpr
    positivity
  · apply Int.floor_lt.mpr
    push_cast
    calc r * (n : Rat) < 1 * (n : Rat) := by
          apply mul_lt_mul_of_pos_right h1
          exact_mod_cast hn
    _ = (n : Rat) := one_mul _

theorem floor_mul_bounds_int {r : Rat} (h0 : 0 ≤ r) (h1 : r < 1)
    {m : Int} (hm : 0 < m) :
    0 ≤ (⌊r * (m : Rat)⌋ : Int) ∧ (⌊r * (m : Rat)⌋ : Int) < m := by
  constructor
  · apply Int.floor_nonneg.mpr
    have : (0:Rat) ≤ (m : Rat) := by exact_mod_cast hm.le
    positivity
  · apply Int.floor_lt.mpr
    calc r * (m : Rat) < 1 * (m : Rat) := by
          apply mul_lt_mul_of_pos_right h1
          exact_mod_cast hm
    _ = (m : Rat) := one_mul _

/-- Closure is monotone under growing the visited set. -/
theorem closedAt_mono {g g' : Grid} (h : visitedLe g g') {x y : Int}
    (hc : closedAt g x y) : closedAt g' x y := by
  obtain ⟨h1, h2, h3, h4⟩ := hc
  exact ⟨fun hv => h _ _ (h1 hv), fun hv => h _ _ (h2 hv),
    fun hv => h _ _ (h3 hv), fun hv => h _ _ (h4 hv)⟩

/-- From a visited start cell, a grid whose visited set is closed under
adjacency has every in-bounds cell visited: the grid graph is
connected. -/
theorem visited_of_closed {g : Grid} {sx sy : Int}
    (hC : ∀ x y : Int, validP x y → (g x y).visited = true →
      closedAt g x y)
    (hs : validP sx sy) (hv : (g sx sy).visited = true) :
    ∀ x y : Int, validP x y → (g x y).visited = true := by
  have key : ∀ n : Nat, ∀ x y : Int,
      (x - sx).natAbs + (y - sy).natAbs = n → validP x y →
      (g x y).visited = true := by
    intro n
    induction n using Nat.strong_induction_on with
    | _ n ih =>
      intro x y hn hxy
      rcases Int.lt_trichotomy x sx with hx | hx | hx
      · -- step right: (x + 1, y) is closer to the start
        have hxy2 : validP (x + 1) y := by
          unfold validP at hxy hs ⊢
          omega
        have hvn : (g (x + 1) y).visited = true := by
          apply ih ((x + 1 - sx).natAbs + (y - sy).natAbs) (by omega)
            (x + 1) y rfl hxy2
        have := (hC (x + 1) y hxy2 hvn).2.2.2 (by simpa using hxy)
        simpa using this
      · rcases Int.lt_trichotomy y sy with hy | hy | hy
        · -- step down: (x, y + 1) is closer to the start
          have hxy2 : validP x (y + 1) := by
            unfold validP at hxy hs ⊢
            omega
          have hvn : (g x (y + 1)).visited = true := by
            apply ih ((x - sx).natAbs + (y + 1 - sy).natAbs) (by omega)
              x (y + 1) rfl hxy2
          have := (hC x (y + 1) hxy2 hvn).1 (by simpa using hxy)
          simpa using this
        · subst hx; subst hy; exact hv
        · -- step up: (x, y - 1) is closer to the start
          have hxy2 : validP x (y - 1) := by
            unfold validP at hxy hs ⊢
            omega
          have hvn : (g x (y - 1)).visited = true := by
            apply ih ((x - sx).natAbs + (y - 1 - sy).natAbs) (by omega)
              x (y - 1) rfl hxy2
          have := (hC x (y - 1) hxy2 hvn).2.2.1 (by simpa using hxy)
          simpa using this
      · -- step left: (x - 1, y) is closer to the start
        have hxy2 : validP (x - 1) y := by
          unfold validP at hxy hs ⊢
          omega
        have hvn : (g (x - 1) y).visited = true := by
          apply ih ((x - 1 - sx).natAbs + (y - sy).natAbs) (by omega)
            (x - 1) y rfl hxy2
        have := (hC (x - 1) y hxy2 hvn).2.1 (by simpa using hxy)
        simpa using this
  intro x y hxy
  exact key ((x - sx).natAbs + (y - sy).natAbs) x y rfl hxy

/-! ### The DFS candidate list -/

theorem neighborCandidates_sound {g : Grid} {x y nx ny : Int} {di : Nat}
    (h : (nx, ny, di) ∈ neighborCandidates g x y) :
    ∃ dir, DIRECTIONS.get? di = some dir ∧ nx = x + dir.x ∧
      ny = y + dir.y ∧ validP nx ny ∧ (g nx ny).visited = false := by
  unfold neighborCandidates at h
  rw [List.mem_filterMap] at h
  obtain ⟨dirIndex, _, heq⟩ := h
  split at heq
  · exact absurd heq (by simp)
  case _ dir hdir =>
    dsimp only at heq
    split at heq
    case isTrue hvalid =>
      split at heq
      case h_1 nb hnb =>
        split at heq
        · exact absurd heq (by simp)
        case isFalse hnvis =>
          have htrip := Option.some.inj heq
          rw [Prod.ext_iff, Prod.ext_iff] at htrip
          obtain ⟨h1, h2, h3⟩ := htrip
          dsimp only at h1 h2 h3
          subst h1; subst h2; subst h3
          have hval : validP (x + dir.x) (y + dir.y) :=
            isValidCell_iff.mp hvalid
          refine ⟨dir, hdir, rfl, rfl, hval, ?_⟩
          have : nb = g (x + dir.x) (y + dir.y) := by
            rw [getCell_eq_some hval] at hnb
            exact (Option.some.inj hnb).symm
          subst this
          cases hb : (g (x + dir.x) (y + dir.y)).visited
          · rfl
          · exact absurd hb hnvis
      case h_2 => exact absurd heq (by simp)
    · exact absurd heq (by simp)

theorem neighborCandidates_complete {g : Grid} {x y : Int} (di : Nat)
    (dir : Direction) (hdir : DIRECTIONS.get? di = some dir)
    (hv : validP (x + dir.x) (y + dir.y))
    (hnv : (g (x + dir.x) (y + dir.y)).visited = false) :
    (x + dir.x, y + dir.y, di) ∈ neighborCandidates g x y := by
  unfold neighborCandidates
  rw [List.mem_filterMap]
  refine ⟨di, ?_, ?_⟩
  · rw [List.mem_range]
    exact (List.get?_eq_some.mp hdir).1
  · rw [hdir]
    dsimp only
    rw [if_pos (isValidCell_iff.mpr hv), getCell_eq_some hv]
    dsimp only
    rw [hnv]
    rfl

theorem closedAt_of_no_candidates {g : Grid} {x y : Int}
    (h : neighborCandidates g x y = []) : closedAt g x y := by
  have step : ∀ (di : Nat) (dir : Direction),
      DIRECTIONS.get? di = some dir → validP (x + dir.x) (y + dir.y) →
      (g (x + dir.x) (y + dir.y)).visited = true := by
    intro di dir hdir hv
    cases hb : (g (x + dir.x) (y + dir.y)).visited
    · have := neighborCandidates_complete di dir hdir hv hb
      rw [h] at this
      exact absurd this (List.not_mem_nil _)
    · rfl
  have htop := step 0 ⟨0, -1, WallDir.top, WallDir.bottom⟩ rfl
  have hright := step 1 ⟨1, 0, WallDir.right, WallDir.left⟩ rfl
  have hbottom := step 2 ⟨0, 1, WallDir.bottom, WallDir.top⟩ rfl
  have hleft := step 3 ⟨-1, 0, WallDir.left, WallDir.right⟩ rfl
  dsimp only at htop hright hbottom hleft
  refine ⟨?_, ?_, ?_, ?_⟩
  · intro hv
    have := htop (by
      have : y + -1 = y - 1 := by ring
      rw [this]
      simpa using hv)
    rw [show y + -1 = y - 1 by ring, show x + 0 = x by ring] at this
    exact this
  · intro hv
    have := hright (by simpa using hv)
    rw [show y + 0 = y by ring] at this
    exact this
  · intro hv
    have := hbottom (by simpa using hv)
    rw [show x + 0 = x by ring] at this
    exact this
  · intro hv
    have := hleft (by
      have : x + -1 = x - 1 := by ring
      rw [this]
      simpa using hv)
    rw [show x + -1 = x - 1 by ring, show y + 0 = y by ring] at this
    exact this

theorem jsGet_natCast {α : Type} (l : List α) (n : Nat) :
    jsGet l (n : Int) = l.get? n := by
  unfold jsGet
  rw [if_pos (Int.natCast_nonneg n)]
  norm_num

theorem hasPathToExit_of_visited {s : MazeState}
    (hv : validP s.exitCell.1 s.exitCell.2)
    (h : (s.grid s.exitCell.1 s.exitCell.2).visited = true) :
    hasPathToExit s = true := by
  unfold hasPathToExit
  rw [if_pos (isValidCell_iff.mpr hv), getCell_eq_some hv]
  exact h

theorem checkExitRepair_of_exitVisited {s : MazeState}
    {st : List (Int × Int)} (h : hasPathToExit s = true) :
    checkExitRepair s st = (s, st) := by
  unfold checkExitRepair
  rw [if_neg]
  intro ⟨_, h2⟩
  rw [h] at h2
  exact absurd h2 (by simp)

/-- Backtracking step of the DFS loop: no unvisited neighbour. -/
theorem dfsIter_backtrack (ρ : Nat → Rat) (s : MazeState) (x y : Int)
    (rest : List (Int × Int))
    (h : neighborCandidates s.grid x y = []) :
    dfsIter ρ s ((x, y) :: rest) = checkExitRepair s rest := by
  unfold dfsIter
  dsimp only
  rw [h]
  simp

/-- Carving step of the DFS loop: some unvisited neighbour exists and the
PRNG draw is in `[0, 1)`, so a neighbour is chosen, the wall pair between
it and the top of the stack is removed, and it is marked visited and
pushed. -/
theorem dfsIter_push (ρ : Nat → Rat) (s : MazeState) (x y : Int)
    (rest : List (Int × Int))
    (hρ0 : 0 ≤ ρ s.currentSeed) (hρ1 : ρ s.currentSeed < 1)
    (hxy : validP x y)
    (hne : neighborCandidates s.grid x y ≠ []) :
    ∃ nx ny : Int, ∃ dir : Direction,
      validP nx ny ∧ (s.grid nx ny).visited = false ∧
      dfsIter ρ s ((x, y) :: rest) =
        checkExitRepair
          { s with
            currentSeed := s.currentSeed + 1
            grid := (setVisited (removeWall (removeWall s.grid x y
              dir.wall) nx ny dir.opposite) nx ny) }
          ((nx, ny) :: (x, y) :: rest) := by
  have hlen : 0 < (neighborCandidates s.grid x y).length :=
    List.length_pos.mpr hne
  have hbounds := floor_mul_bounds hρ0 hρ1 hlen
  obtain ⟨nb, hjg, hnbmem⟩ := jsGet_eq_some hbounds.1 hbounds.2
  obtain ⟨nx, ny, di⟩ := nb
  obtain ⟨dir, hdir, hnx, hny, hval, hnvis⟩ :=
    neighborCandidates_sound hnbmem
  refine ⟨nx, ny, dir, hval, hnvis, ?_⟩
  unfold dfsIter
  dsimp only [seedRandom]
  rw [if_pos hlen]
  rw [hjg]
  dsimp only
  rw [jsGet_natCast, hdir]
  dsimp only
  rw [getCell_eq_some hxy, getCell_eq_some hval]

theorem dfsLoop_nil (ρ : Nat → Rat) (fuel : Nat) (s : MazeState) :
    dfsLoop ρ fuel s [] = (s, []) := by
  cases fuel <;> rfl

theorem checkExitRepair_of_nonempty (s : MazeState)
    {st : List (Int × Int)} (h : st ≠ []) :
    checkExitRepair s st = (s, st) := by
  unfold checkExitRepair
  rw [if_neg]
  intro ⟨h1, _⟩
  exact h (List.length_eq_zero.mp h1)

/-- Main DFS loop lemma: under the invariant, with fuel at least the
measure and PRNG draws in `[0, 1)`, the loop terminates with the stack
empty and every in-bounds cell visited. -/
theorem dfsLoop_visits_all (ρ : Nat → Rat)
    (hρ : ∀ i, 0 ≤ ρ i ∧ ρ i < 1) (sx sy : Int) :
    ∀ (fuel : Nat) (s : MazeState) (stack : List (Int × Int)),
      dfsInv s stack sx sy → dfsMeasure s.grid stack ≤ fuel →
      ∀ x y : Int, validP x y →
        ((dfsLoop ρ fuel s stack).1.grid x y).visited = true := by
  intro fuel
  induction fuel with
  | zero =>
    intro s stack hInv hμ x y hxy
    unfold dfsMeasure at hμ
    have hz : unvisitedCount s.grid = 0 := by omega
    exact unvisitedCount_zero hz hxy
  | succ fuel ih =>
    intro s stack hInv hμ x y hxy
    obtain ⟨hstack, hclosed, hsxy, hsv⟩ := hInv
    match stack with
    | [] =>
      rw [dfsLoop_nil]
      have hC : ∀ a b : Int, validP a b →
          (s.grid a b).visited = true → closedAt s.grid a b := by
        intro a b hab hv
        rcases hclosed a b hab hv with hmem | hcl
        · exact absurd hmem (List.not_mem_nil _)
        · exact hcl
      exact visited_of_closed hC hsxy hsv x y hxy
    | (cx, cy) :: rest =>
      obtain ⟨hcxy, hcv⟩ := hstack (cx, cy) (List.mem_cons_self _ _)
      unfold dfsLoop
      rw [if_pos (by simp)]
      by_cases hcand : neighborCandidates s.grid cx cy = []
      · -- backtrack
        rw [dfsIter_backtrack ρ s cx cy rest hcand]
        have hInv2 : dfsInv s rest sx sy := by
          refine ⟨fun p hp => hstack p (List.mem_cons_of_mem _ hp),
            ?_, hsxy, hsv⟩
          intro a b hab hv
          rcases hclosed a b hab hv with hmem | hcl
          · rcases List.mem_cons.mp hmem with heqp | hmem2
            · right
              rw [Prod.ext_iff] at heqp
              dsimp only at heqp
              rw [heqp.1, heqp.2]
              exact closedAt_of_no_candidates hcand
            · exact Or.inl hmem2
          · exact Or.inr hcl
        match rest with
        | [] =>
          -- the stack empties: the visited set is closed, so everything
          -- is already visited; the repair check can only add visits
          have hall : ∀ a b : Int, validP a b →
              (s.grid a b).visited = true := by
            apply visited_of_closed ?_ hsxy hsv
            intro a b hab hv
            rcases hInv2.2.1 a b hab hv with hmem | hcl
            · exact absurd hmem (List.not_mem_nil _)
            · exact hcl
          show ((dfsLoop ρ fuel (checkExitRepair s []).1
            (checkExitRepair s []).2).1.grid x y).visited = true
          rw [checkExitRepair_stack s [], dfsLoop_nil]
          exact (gridEvol_checkExitRepair s []).1 x y (hall x y hxy)
        | r :: rs =>
          rw [checkExitRepair_of_nonempty s (by simp)]
          apply ih s (r :: rs) hInv2
          · unfold dfsMeasure at hμ ⊢
            simp only [List.length_cons] at hμ ⊢
            omega
          · exact hxy
      · -- push
        obtain ⟨nx, ny, dir, hnval, hnvis, heq⟩ :=
          dfsIter_push ρ s cx cy rest (hρ s.currentSeed).1
            (hρ s.currentSeed).2 hcxy hcand
        rw [heq, checkExitRepair_of_nonempty _ (by simp)]
        set g3 : Grid := setVisited
          (removeWall (removeWall s.grid cx cy dir.wall)
            nx ny dir.opposite) nx ny with hg3
        have hvis3 : ∀ a b : Int, (g3 a b).visited =
            if a = nx ∧ b = ny then true else (s.grid a b).visited := by
          intro a b
          rw [hg3, setVisited_visited, removeWall_visited,
            removeWall_visited]
        have hmono3 : visitedLe s.grid g3 := by
          intro a b hv
          rw [hvis3]
          split
          · rfl
          · exact hv
        have hInv3 : dfsInv
            { s with
              currentSeed := s.currentSeed + 1
              grid := g3 }
            ((nx, ny) :: (cx, cy) :: rest) sx sy := by
          refine ⟨?_, ?_, hsxy, hmono3 sx sy hsv⟩
          · intro p hp
            rcases List.mem_cons.mp hp with heqp | hp2
            · subst heqp
              exact ⟨hnval, by rw [hvis3]; simp⟩
            · obtain ⟨hq1, hq2⟩ := hstack p hp2
              exact ⟨hq1, hmono3 p.1 p.2 hq2⟩
          · intro a b hab hv
            dsimp only at hv
            rw [hvis3] at hv
            by_cases hnb : a = nx ∧ b = ny
            · left
              rw [hnb.1, hnb.2]
              exact List.mem_cons_self _ _
            · rw [if_neg hnb] at hv
              rcases hclosed a b hab hv with hmem | hcl
              · exact Or.inl (List.mem_cons_of_mem _ hmem)
              · exact Or.inr (closedAt_mono hmono3 hcl)
        apply ih _ _ hInv3
        · unfold dfsMeasure at hμ ⊢
          dsimp only
          have hcnt : unvisitedCount g3 + 1 = unvisitedCount s.grid := by
            rw [hg3]
            rw [show unvisitedCount (setVisited (removeWall (removeWall
              s.grid cx cy dir.wall) nx ny dir.opposite) nx ny) + 1 =
              unvisitedCount (removeWall (removeWall s.grid cx cy
                dir.wall) nx ny dir.opposite) from
              unvisitedCount_setVisited hnval (by
                rw [removeWall_visited, removeWall_visited]
                exact hnvis)]
            rw [unvisitedCount_removeWall, unvisitedCount_removeWall]
          simp only [List.length_cons] at hμ ⊢
          omega
        · exact hxy

/-! ### Assembling the pipeline: normal form of a build, full coverage -/

theorem generateMaze_unfolded (ρ : Nat → Rat) (s : MazeState) :
    generateMaze ρ s =
      addExtraConnections ρ
        ⟨removeWall (depthFirstSearch ρ 25 0
            (dfsStartState s.entranceWorldPosition)).grid
            25 (MAZE_SIZE - 1) WallDir.bottom,
          (depthFirstSearch ρ 25 0
            (dfsStartState s.entranceWorldPosition)).entrance,
          (depthFirstSearch ρ 25 0
            (dfsStartState s.entranceWorldPosition)).exitCell,
          (depthFirstSearch ρ 25 0
            (dfsStartState s.entranceWorldPosition)).entranceWorldPosition,
          (depthFirstSearch ρ 25 0
            (dfsStartState s.entranceWorldPosition)).currentSeed⟩ := by
  unfold generateMaze dfsStartState
  dsimp only
  rw [floor_half_MAZE_SIZE]
  simp only [if_pos (show (0:Int) ≤ 0 ∧ (0:Int) < MAZE_SIZE ∧ (0:Int) ≤ 25 ∧
    (25:Int) < MAZE_SIZE by decide),
    if_pos (show (0:Int) ≤ MAZE_SIZE - 1 ∧ MAZE_SIZE - 1 < MAZE_SIZE ∧
    (0:Int) ≤ 25 ∧ (25:Int) < MAZE_SIZE by decide),
    getCell_eq_some (show validP 25 0 by decide),
    getCell_eq_some (show validP 25 (MAZE_SIZE - 1) by decide)]

theorem cellFinset_card : cellFinset.card = 2500 := by
  unfold cellFinset
  rw [Finset.card_product, Int.card_Icc]
  decide

theorem unvisitedCount_le (g : Grid) : unvisitedCount g ≤ 2500 := by
  unfold unvisitedCount
  calc (cellFinset.filter _).card ≤ cellFinset.card :=
        Finset.card_filter_le _ _
  _ = 2500 := cellFinset_card

theorem depthFirstSearch_all (ρ : Nat → Rat)
    (hρ : ∀ i, 0 ≤ ρ i ∧ ρ i < 1) (s : MazeState) (sx sy : Int)
    (hsx : validP sx sy)
    (hall0 : ∀ a b : Int, (s.grid a b).visited = false) :
    ∀ x y : Int, validP x y →
      ((depthFirstSearch ρ sx sy s).grid x y).visited = true := by
  intro x y hxy
  unfold depthFirstSearch
  rw [if_neg (by simp [isValidCell_iff.mpr hsx])]
  rw [getCell_eq_some hsx]
  dsimp only
  apply dfsLoop_visits_all ρ hρ sx sy dfsFuel _ _ ?_ ?_ x y hxy
  · refine ⟨?_, ?_, hsx, setVisited_visited_self s.grid sx sy⟩
    · intro p hp
      rcases List.mem_cons.mp hp with heqp | habs
      · subst heqp
        exact ⟨hsx, setVisited_visited_self s.grid sx sy⟩
      · exact absurd habs (List.not_mem_nil _)
    · intro a b hab hv
      dsimp only at hv
      rw [setVisited_visited] at hv
      split at hv
      · left
        next hc =>
          rw [hc.1, hc.2]
          exact List.mem_cons_self _ _
      · rw [hall0 a b] at hv
        exact absurd hv (by simp)
  · unfold dfsMeasure
    have h1 := unvisitedCount_le
      (setVisited s.grid sx sy)
    have h2 : dfsFuel = 5002 := by decide
    simp only [List.length_cons, List.length_nil]
    omega

/-- Full coverage: a build leaves every in-bounds cell visited (the DFS
carve reaches everything, and the later steps never clear a flag). -/
theorem generateMaze_all_visited (ρ : Nat → Rat)
    (hρ : ∀ i, 0 ≤ ρ i ∧ ρ i < 1) (s : MazeState) :
    ∀ x y : Int, validP x y →
      ((generateMaze ρ s).grid x y).visited = true := by
  intro x y hxy
  rw [generateMaze_unfolded]
  rw [addExtraConnections_visited_eq]
  dsimp only
  rw [removeWall_visited]
  apply depthFirstSearch_all ρ hρ (dfsStartState s.entranceWorldPosition)
    25 0 (by decide) ?_ x y hxy
  intro a b
  unfold dfsStartState
  dsimp only
  rw [removeWall_visited]
  rfl

/-- One loop-injection iteration, fully characterized when the three PRNG
draws are in range: the drawn cell is in bounds, and the wall pair toward
the drawn direction is removed exactly when the neighbour is in bounds. -/
theorem extraStep_spec (ρ : Nat → Rat) (s : MazeState)
    (h0 : 0 ≤ ρ s.currentSeed) (h1 : ρ s.currentSeed < 1)
    (h2 : 0 ≤ ρ (s.currentSeed + 1)) (h3 : ρ (s.currentSeed + 1) < 1)
    (h4 : 0 ≤ ρ (s.currentSeed + 2)) (h5 : ρ (s.currentSeed + 2) < 1) :
    ∃ dir : Direction,
      jsGet DIRECTIONS
        ⌊ρ (s.currentSeed + 2) * ((DIRECTIONS.length : Nat) : Rat)⌋ =
        some dir ∧
      extraStep ρ s =
        { s with
          currentSeed := s.currentSeed + 3
          grid := (if isValidCell
              (⌊ρ s.currentSeed * (MAZE_SIZE : Rat)⌋ + dir.x)
              (⌊ρ (s.currentSeed + 1) * (MAZE_SIZE : Rat)⌋ + dir.y) then
            removeWall
              (removeWall s.grid ⌊ρ s.currentSeed * (MAZE_SIZE : Rat)⌋
                ⌊ρ (s.currentSeed + 1) * (MAZE_SIZE : Rat)⌋ dir.wall)
              (⌊ρ s.currentSeed * (MAZE_SIZE : Rat)⌋ + dir.x)
              (⌊ρ (s.currentSeed + 1) * (MAZE_SIZE : Rat)⌋ + dir.y)
              dir.opposite
          else s.grid) } := by
  have hx := floor_mul_bounds_int h0 h1
    (show (0:Int) < MAZE_SIZE by decide)
  have hy := floor_mul_bounds_int h2 h3
    (show (0:Int) < MAZE_SIZE by decide)
  have hd := floor_mul_bounds h4 h5
    (show 0 < DIRECTIONS.length by decide)
  obtain ⟨dir, hdg, _⟩ := jsGet_eq_some hd.1 hd.2
  refine ⟨dir, hdg, ?_⟩
  have hvx : validP ⌊ρ s.currentSeed * (MAZE_SIZE : Rat)⌋
      ⌊ρ (s.currentSeed + 1) * (MAZE_SIZE : Rat)⌋ :=
    ⟨hx.1, hx.2, hy.1, hy.2⟩
  unfold extraStep
  dsimp only [seedRandom]
  rw [if_neg (by
    rw [not_not, isValidCell_iff]
    exact hvx)]
  rw [hdg]
  dsimp only
  by_cases hnext : isValidCell
      (⌊ρ s.currentSeed * (MAZE_SIZE : Rat)⌋ + dir.x)
      (⌊ρ (s.currentSeed + 1) * (MAZE_SIZE : Rat)⌋ + dir.y) = true
  · rw [if_pos hnext, if_pos hnext]
    rw [getCell_eq_some hvx, getCell_eq_some (isValidCell_iff.mp hnext)]
  · rw [if_neg hnext, if_neg hnext]

/-! ### The walkable-cell enumeration and random sampling -/

theorem isWalkableCell_iff {g : Grid} {x z : Int} :
    isWalkableCell g x z = true ↔
      validP x z ∧ (g x z).visited = true := by
  unfold isWalkableCell
  by_cases h : validP x z
  · rw [getCell_eq_some h]
    simp [h]
  · rw [show getCell g x z = none from by
      unfold getCell
      rw [if_neg (by simpa [isValidCell_iff] using h)]]
    simp [h]

theorem mem_getAllWalkableCells {s : MazeState} {p : Int × Int} :
    p ∈ getAllWalkableCells s ↔
      validP p.1 p.2 ∧ (s.grid p.1 p.2).visited = true := by
  unfold getAllWalkableCells
  rw [List.mem_flatMap]
  constructor
  · rintro ⟨z, hz, hp⟩
    rw [List.mem_filterMap] at hp
    obtain ⟨x, _, heq⟩ := hp
    split at heq
    case isTrue hw =>
      have hp := Option.some.inj heq
      subst hp
      exact isWalkableCell_iff.mp hw
    · exact absurd heq (by simp)
  · intro ⟨hv, hw⟩
    obtain ⟨hx0, hx1, hz0, hz1⟩ := hv
    refine ⟨p.2.toNat, ?_, ?_⟩
    · rw [List.mem_range]
      have : MAZE_SIZE.toNat = 50 := rfl
      omega
    · rw [List.mem_filterMap]
      refine ⟨p.1.toNat, ?_, ?_⟩
      · rw [List.mem_range]
        have : MAZE_SIZE.toNat = 50 := rfl
        omega
      · have e1 : Int.ofNat p.1.toNat = p.1 := by
          show ((p.1.toNat : Nat) : Int) = p.1
          exact Int.toNat_of_nonneg hx0
        have e2 : Int.ofNat p.2.toNat = p.2 := by
          show ((p.2.toNat : Nat) : Int) = p.2
          exact Int.toNat_of_nonneg hz0
        rw [e1, e2, if_pos (isWalkableCell_iff.mpr ⟨⟨hx0, hx1, hz0, hz1⟩,
          hw⟩)]

/-- The index drawn by `getRandomWalkablePosition` is in range when the
PRNG output is in `[0, 1)` and the eligible list is nonempty. -/
theorem randomIndex_bounds {r : Rat} (h0 : 0 ≤ r) (h1 : r < 1)
    {n : Nat} (hn : 0 < n) :
    0 ≤ min (⌊r * (n : Rat)⌋ : Int) ((n : Int) - 1) ∧
      min (⌊r * (n : Rat)⌋ : Int) ((n : Int) - 1) < (n : Int) := by
  have := floor_mul_bounds h0 h1 hn
  constructor
  · apply le_min this.1
    omega
  · apply min_lt_of_right_lt
    omega

/-! ### The closest-visited-cell scan of the repair step -/

theorem rowMajorLe_refl (p : Int × Int) : rowMajorLe p p :=
  Or.inr ⟨rfl, le_refl _⟩

theorem rowMajorLt_le {p q : Int × Int} (h : rowMajorLt p q) :
    rowMajorLe p q := by
  unfold rowMajorLt at h
  rcases h with h | h
  · exact Or.inl h
  · exact Or.inr ⟨h.1, h.2.le⟩

theorem scanStep_vv {s : MazeState} {q : Int × Int} (hq : vvP s q)
    (acc : Option (Int × Int × Int)) :
    scanStep s acc q =
      match acc with
      | none => some (q.1, q.2, exitDist s q)
      | some best =>
        if exitDist s q < best.2.2 then some (q.1, q.2, exitDist s q)
        else acc := by
  unfold scanStep
  rw [if_pos (isValidCell_iff.mpr hq.1), getCell_eq_some hq.1]
  dsimp only
  rw [hq.2]
  rfl

theorem scanStep_not_vv {s : MazeState} {q : Int × Int}
    (hq : ¬ vvP s q) (acc : Option (Int × Int × Int)) :
    scanStep s acc q = acc := by
  unfold scanStep
  by_cases hv : validP q.1 q.2
  · rw [if_pos (isValidCell_iff.mpr hv), getCell_eq_some hv]
    dsimp only
    have : (s.grid q.1 q.2).visited = false := by
      cases hb : (s.grid q.1 q.2).visited
      · rfl
      · exact absurd ⟨hv, hb⟩ hq
    rw [this]
    simp
  · rw [if_neg (by simpa [isValidCell_iff] using hv)]

/-- Full characterization of the strict-min fold of the repair scan over
a row-major-sorted list: the result is valid and visited, realizes the
minimum distance over the accumulator and the visited list entries, and
on ties the earliest (row-major-first) cell wins. -/
theorem scan_foldl_spec (s : MazeState) :
    ∀ L : List (Int × Int), L.Pairwise rowMajorLt →
    ∀ acc : Option (Int × Int × Int),
    (∀ r, acc = some r → vvP s (r.1, r.2.1) ∧
      r.2.2 = exitDist s (r.1, r.2.1) ∧
      ∀ q ∈ L, rowMajorLt (r.1, r.2.1) q) →
    (L.foldl (scanStep s) acc = none →
      acc = none ∧ ∀ p ∈ L, ¬ vvP s p) ∧
    (∀ z, L.foldl (scanStep s) acc = some z →
      (vvP s (z.1, z.2.1) ∧ z.2.2 = exitDist s (z.1, z.2.1)) ∧
      (∀ p ∈ L, vvP s p → z.2.2 ≤ exitDist s p ∧
        (exitDist s p = z.2.2 → rowMajorLe (z.1, z.2.1) p)) ∧
      (∀ a, acc = some a → z.2.2 ≤ a.2.2 ∧ (z = a ∨ z.2.2 < a.2.2))) := by
  intro L
  induction L with
  | nil =>
    intro _ acc hacc
    constructor
    · intro h
      exact ⟨h, fun p hp => absurd hp (List.not_mem_nil _)⟩
    · intro z hz
      dsimp only [List.foldl] at hz
      obtain ⟨h1, h2, _⟩ := hacc z hz
      refine ⟨⟨h1, h2⟩, fun p hp => absurd hp (List.not_mem_nil _),
        fun a ha => ?_⟩
      rw [hz] at ha
      have := Option.some.inj ha
      subst this
      exact ⟨le_refl _, Or.inl rfl⟩
  | cons q L ih =>
    intro hpw acc hacc
    obtain ⟨hqL, hpwL⟩ := List.pairwise_cons.mp hpw
    by_cases hq : vvP s q
    · -- the scanned cell is valid and visited
      rw [show (q :: L).foldl (scanStep s) acc =
        L.foldl (scanStep s) (scanStep s acc q) from rfl]
      rw [scanStep_vv hq acc]
      match acc, hacc with
      | none, _ =>
        dsimp only
        have hacc' : ∀ r, (some (q.1, q.2, exitDist s q) :
            Option (Int × Int × Int)) = some r →
            vvP s (r.1, r.2.1) ∧ r.2.2 = exitDist s (r.1, r.2.1) ∧
            ∀ p ∈ L, rowMajorLt (r.1, r.2.1) p := by
          intro r hr
          have := Option.some.inj hr
          subst this
          exact ⟨hq, rfl, hqL⟩
        obtain ⟨ihn, ihs⟩ := ih hpwL _ hacc'
        constructor
        · intro h
          obtain ⟨habs, _⟩ := ihn h
          exact absurd habs (by simp)
        · intro z hz
          obtain ⟨hz1, hz2, hz3⟩ := ihs z hz
          refine ⟨hz1, ?_, by intro a ha; exact absurd ha (by simp)⟩
          intro p hp hvp
          rcases List.mem_cons.mp hp with heqp | hmem
          · subst heqp
            obtain ⟨hle, hcase⟩ := hz3 _ rfl
            dsimp only at hle hcase
            refine ⟨hle, fun hd => ?_⟩
            rcases hcase with heq | hlt
            · rw [heq]
              exact rowMajorLe_refl p
            · exfalso
              rw [hd] at hlt
              exact absurd hlt (lt_irrefl _)
          · exact hz2 p hmem hvp
      | some b, hacc =>
        obtain ⟨hb1, hb2, hb3⟩ := hacc b rfl
        dsimp only
        by_cases hdq : exitDist s q < b.2.2
        · rw [if_pos hdq]
          have hacc' : ∀ r, (some (q.1, q.2, exitDist s q) :
              Option (Int × Int × Int)) = some r →
              vvP s (r.1, r.2.1) ∧ r.2.2 = exitDist s (r.1, r.2.1) ∧
              ∀ p ∈ L, rowMajorLt (r.1, r.2.1) p := by
            intro r hr
            have := Option.some.inj hr
            subst this
            exact ⟨hq, rfl, hqL⟩
          obtain ⟨ihn, ihs⟩ := ih hpwL _ hacc'
          constructor
          · intro h
            obtain ⟨habs, _⟩ := ihn h
            exact absurd habs (by simp)
          · intro z hz
            obtain ⟨hz1, hz2, hz3⟩ := ihs z hz
            obtain ⟨hle, hcase⟩ := hz3 _ rfl
            dsimp only at hle hcase
            refine ⟨hz1, ?_, ?_⟩
            · intro p hp hvp
              rcases List.mem_cons.mp hp with heqp | hmem
              · subst heqp
                refine ⟨hle, fun hd => ?_⟩
                rcases hcase with heq | hlt
                · rw [heq]
                  exact rowMajorLe_refl p
                · exfalso
                  rw [hd] at hlt
                  exact absurd hlt (lt_irrefl _)
              · exact hz2 p hmem hvp
            · intro a ha
              have := Option.some.inj ha
              subst this
              exact ⟨le_of_lt (lt_of_le_of_lt hle hdq),
                Or.inr (lt_of_le_of_lt hle hdq)⟩
        · rw [if_neg hdq]
          have hacc' : ∀ r, (some b : Option (Int × Int × Int)) =
              some r → vvP s (r.1, r.2.1) ∧
              r.2.2 = exitDist s (r.1, r.2.1) ∧
              ∀ p ∈ L, rowMajorLt (r.1, r.2.1) p := by
            intro r hr
            have := Option.some.inj hr
            subst this
            exact ⟨hb1, hb2, fun p hp => hb3 p (List.mem_cons_of_mem _ hp)⟩
          obtain ⟨ihn, ihs⟩ := ih hpwL _ hacc'
          constructor
          · intro h
            obtain ⟨habs, _⟩ := ihn h
            exact absurd habs (by simp)
          · intro z hz
            obtain ⟨hz1, hz2, hz3⟩ := ihs z hz
            obtain ⟨hle, hcase⟩ := hz3 b rfl
            refine ⟨hz1, ?_, ?_⟩
            · intro p hp hvp
              rcases List.mem_cons.mp hp with heqp | hmem
              · subst heqp
                have hqb : b.2.2 ≤ exitDist s p := le_of_not_lt hdq
                refine ⟨le_trans hle hqb, fun hd => ?_⟩
                have hzb : z = b := by
                  rcases hcase with heq | hlt
                  · exact heq
                  · exfalso
                    omega
                rw [hzb]
                exact rowMajorLt_le (hb3 p (List.mem_cons_self _ _))
              · exact hz2 p hmem hvp
            · intro a ha
              have := Option.some.inj ha
              subst this
              exact ⟨hle, hcase⟩
    · -- the scanned cell is skipped
      rw [show (q :: L).foldl (scanStep s) acc =
        L.foldl (scanStep s) (scanStep s acc q) from rfl]
      rw [scanStep_not_vv hq acc]
      have hacc' : ∀ r, acc = some r → vvP s (r.1, r.2.1) ∧
          r.2.2 = exitDist s (r.1, r.2.1) ∧
          ∀ p ∈ L, rowMajorLt (r.1, r.2.1) p := by
        intro r hr
        obtain ⟨h1, h2, h3⟩ := hacc r hr
        exact ⟨h1, h2, fun p hp => h3 p (List.mem_cons_of_mem _ hp)⟩
      obtain ⟨ihn, ihs⟩ := ih hpwL acc hacc'
      constructor
      · intro h
        obtain ⟨h1, h2⟩ := ihn h
        refine ⟨h1, fun p hp => ?_⟩
        rcases List.mem_cons.mp hp with heqp | hmem
        · subst heqp
          exact hq
        · exact h2 p hmem
      · intro z hz
        obtain ⟨hz1, hz2, hz3⟩ := ihs z hz
        refine ⟨hz1, ?_, hz3⟩
        intro p hp hvp
        rcases List.mem_cons.mp hp with heqp | hmem
        · subst heqp
          exact absurd hvp hq
        · exact hz2 p hmem hvp

theorem scanCells_pairwise : scanCells.Pairwise rowMajorLt := by
  unfold scanCells
  rw [List.pairwise_flatMap]
  constructor
  · intro a _
    rw [List.pairwise_map]
    apply (List.pairwise_lt_range _).imp
    intro x1 x2 h
    refine Or.inr ⟨rfl, ?_⟩
    show Int.ofNat x1 < Int.ofNat x2
    exact Int.ofNat_lt.mpr h
  · apply (List.pairwise_lt_range _).imp
    intro y1 y2 h p hp q hq
    rw [List.mem_map] at hp hq
    obtain ⟨x1, _, hx1⟩ := hp
    obtain ⟨x2, _, hx2⟩ := hq
    rw [← hx1, ← hx2]
    refine Or.inl ?_
    show Int.ofNat y1 < Int.ofNat y2
    exact Int.ofNat_lt.mpr h

theorem mem_scanCells {p : Int × Int} (h : validP p.1 p.2) :
    p ∈ scanCells := by
  obtain ⟨hx0, hx1, hy0, hy1⟩ := h
  unfold scanCells
  rw [List.mem_flatMap]
  refine ⟨p.2.toNat, ?_, ?_⟩
  · rw [List.mem_range]
    have : MAZE_SIZE.toNat = 50 := rfl
    omega
  · rw [List.mem_map]
    refine ⟨p.1.toNat, ?_, ?_⟩
    · rw [List.mem_range]
      have : MAZE_SIZE.toNat = 50 := rfl
      omega
    · have e1 : Int.ofNat p.1.toNat = p.1 := by
        show ((p.1.toNat : Nat) : Int) = p.1
        exact Int.toNat_of_nonneg hx0
      have e2 : Int.ofNat p.2.toNat = p.2 := by
        show ((p.2.toNat : Nat) : Int) = p.2
        exact Int.toNat_of_nonneg hy0
      rw [e1, e2]

/-- When any valid visited cell exists, the `connectToExit` scan finds
the row-major-first cell of minimum Manhattan distance to the exit. -/
theorem closestVisitedToExit_spec (s : MazeState)
    (hex : ∃ p : Int × Int, vvP s p) :
    ∃ cx cy : Int,
      closestVisitedToExit s = some (cx, cy, exitDist s (cx, cy)) ∧
      vvP s (cx, cy) ∧
      (∀ p : Int × Int, vvP s p →
        exitDist s (cx, cy) ≤ exitDist s p) ∧
      (∀ p : Int × Int, vvP s p →
        exitDist s p = exitDist s (cx, cy) → rowMajorLe (cx, cy) p) := by
  obtain ⟨spec_none, spec_some⟩ := scan_foldl_spec s scanCells
    scanCells_pairwise none (by intro r hr; exact absurd hr (by simp))
  unfold closestVisitedToExit
  match hres : scanCells.foldl (scanStep s) none with
  | none =>
    exfalso
    obtain ⟨_, habs⟩ := spec_none hres
    obtain ⟨p, hp⟩ := hex
    exact habs p (mem_scanCells hp.1) hp
  | some z =>
    obtain ⟨⟨hz1, hz2⟩, hz3, _⟩ := spec_some z hres
    refine ⟨z.1, z.2.1, ?_, hz1, ?_, ?_⟩
    · rw [← hz2]
    · intro p hp
      rw [← hz2]
      exact (hz3 p (mem_scanCells hp.1) hp).1
    · intro p hp hd
      rw [← hz2] at hd
      exact (hz3 p (mem_scanCells hp.1) hp).2 hd

/-! ### The corridor carved by `createPathToExit` -/

theorem onRepairPath_self (x y ex ey : Int) :
    onRepairPath x y ex ey x y ∨ (x = ex ∧ y = ey → True) := by
  left
  unfold onRepairPath
  omega

theorem onRepairPath_step_down {x y ex ey a b : Int} (hy : y < ey)
    (h : onRepairPath x y ex ey a b) :
    (a = x ∧ b = y) ∨ onRepairPath x (y + 1) ex ey a b := by
  unfold onRepairPath at *
  omega

theorem onRepairPath_step_up {x y ex ey a b : Int} (hy : ey < y)
    (h : onRepairPath x y ex ey a b) :
    (a = x ∧ b = y) ∨ onRepairPath x (y - 1) ex ey a b := by
  unfold onRepairPath at *
  omega

theorem onRepairPath_step_right {x y ex ey a b : Int} (hy : y = ey)
    (hx : x < ex) (h : onRepairPath x y ex ey a b) :
    (a = x ∧ b = y) ∨ onRepairPath (x + 1) y ex ey a b := by
  unfold onRepairPath at *
  omega

theorem onRepairPath_step_left {x y ex ey a b : Int} (hy : y = ey)
    (hx : ex < x) (h : onRepairPath x y ex ey a b) :
    (a = x ∧ b = y) ∨ onRepairPath (x - 1) y ex ey a b := by
  unfold onRepairPath at *
  omega

theorem onRepairPath_exit_self {ex ey a b : Int}
    (h : onRepairPath ex ey ex ey a b) : a = ex ∧ b = ey := by
  unfold onRepairPath at h
  omega

theorem Walls.top_eq_get (w : Walls) : w.top = w.get WallDir.top := rfl

theorem Walls.right_eq_get (w : Walls) : w.right = w.get WallDir.right :=
  rfl

theorem Walls.bottom_eq_get (w : Walls) :
    w.bottom = w.get WallDir.bottom := rfl

theorem Walls.left_eq_get (w : Walls) : w.left = w.get WallDir.left := rfl

set_option maxRecDepth 8000 in
set_option maxHeartbeats 1000000 in
/-- Properties of the corridor walk: every traversed cell except the
exit is marked visited (the exit is marked by `createPathToExit`
afterwards), and every wall pair along the vertical-then-horizontal
corridor is removed. -/
theorem pathLoop_props (ex ey : Int) (hex : validP ex ey) :
    ∀ (x y : Int) (g : Grid), validP x y →
      (∀ a b : Int, onRepairPath x y ex ey a b → ¬(a = ex ∧ b = ey) →
        ((pathLoop ex ey x y g) a b).visited = true) ∧
      (∀ b : Int, min y ey ≤ b → b < max y ey →
        ((pathLoop ex ey x y g) x b).walls.bottom = false ∧
        ((pathLoop ex ey x y g) x (b + 1)).walls.top = false) ∧
      (∀ a : Int, min x ex ≤ a → a < max x ex →
        ((pathLoop ex ey x y g) a ey).walls.right = false ∧
        ((pathLoop ex ey x y g) (a + 1) ey).walls.left = false) := by
  intro x y g
  induction x, y, g using pathLoop.induct ex ey with
  | case1 x y g h =>
    intro hxy
    obtain ⟨hx, hy⟩ := h
    subst hx; subst hy
    refine ⟨?_, ?_, ?_⟩
    · intro a b hp hne
      exact absurd (onRepairPath_exit_self hp) hne
    · intro b h1 h2
      exfalso; omega
    · intro a h1 h2
      exfalso; omega
  | case2 x y g h hnone =>
    intro hxy
    rw [getCell_eq_some hxy] at hnone
    exact absurd hnone (by simp)
  | case3 x y g h val hval hy hyy hnone =>
    intro hxy
    exfalso
    simp only [decide_eq_true_eq] at hyy
    have hv2 : validP x (y + 1) := by
      unfold validP at hxy hex ⊢
      omega
    rw [getCell_eq_some hv2] at hnone
    exact absurd hnone (by simp)
  | case4 x y g h val hval hy hyy val2 hval2 ih =>
    intro hxy
    simp only [decide_eq_true_eq] at hyy
    have hylt : y < ey := by omega
    have hv2 : validP x (y + 1) := by
      unfold validP at hxy hex ⊢
      omega
    obtain ⟨ih1, ih2, ih3⟩ := ih hv2
    have heq : pathLoop ex ey x y g = pathLoop ex ey x (y + 1)
        (removeWall (removeWall (setVisited g x y) x y WallDir.bottom)
          x (y + 1) WallDir.top) := by
      clear ih ih1 ih2 ih3
      rw [pathLoop.eq_def]
      rw [if_neg h]
      simp only [hval]
      repeat' split
      all_goals try rfl
      all_goals exfalso
      all_goals simp_all only [decide_eq_true_eq,
        decide_eq_false_iff_not, abs_pos, not_lt, not_not, not_true,
        abs_nonpos_iff, not_false_iff, Option.some.injEq, reduceCtorEq]
      all_goals omega
    rw [heq]
    have hmono := gridEvol_pathLoop ex ey x (y + 1)
        (removeWall (removeWall (setVisited g x y) x y WallDir.bottom)
          x (y + 1) WallDir.top)
    refine ⟨?_, ?_, ?_⟩
    · intro a b hp hne
      rcases onRepairPath_step_down hylt hp with ⟨ha, hb⟩ | hp2
      · subst ha; subst hb
        apply hmono.1
        rw [removeWall_visited, removeWall_visited,
          setVisited_visited_self]
      · exact ih1 a b hp2 hne
    · intro b h1 h2
      by_cases hb : b = y
      · subst hb
        constructor
        · rw [Walls.bottom_eq_get]
          exact wallsGe_false hmono.2 (by
            rw [removeWall_walls, if_neg (by omega), removeWall_walls,
              if_pos ⟨rfl, rfl⟩, Walls.get_set_false, if_pos rfl])
        · rw [Walls.top_eq_get]
          exact wallsGe_false hmono.2 (by
            rw [removeWall_walls, if_pos ⟨rfl, rfl⟩,
              Walls.get_set_false, if_pos rfl])
      · apply ih2 b <;> omega
    · intro a h1 h2
      apply ih3 a <;> omega
  | case5 x y g h val hval hy hyy hnone =>
    intro hxy
    exfalso
    simp only [decide_eq_true_eq, decide_eq_false_iff_not, abs_pos,
      not_lt, abs_nonpos_iff] at hy hyy
    have hv2 : validP x (y - 1) := by
      unfold validP at hxy hex ⊢
      omega
    rw [getCell_eq_some hv2] at hnone
    exact absurd hnone (by simp)
  | case6 x y g h val hval hy hyy val2 hval2 ih =>
    intro hxy
    simp only [decide_eq_true_eq, decide_eq_false_iff_not, abs_pos,
      not_lt, abs_nonpos_iff] at hy hyy
    have hygt : ey < y := by omega
    have hv2 : validP x (y - 1) := by
      unfold validP at hxy hex ⊢
      omega
    obtain ⟨ih1, ih2, ih3⟩ := ih hv2
    have heq : pathLoop ex ey x y g = pathLoop ex ey x (y - 1)
        (removeWall (removeWall (setVisited g x y) x y WallDir.top)
          x (y - 1) WallDir.bottom) := by
      clear ih ih1 ih2 ih3
      rw [pathLoop.eq_def]
      rw [if_neg h]
      simp only [hval]
      repeat' split
      all_goals try rfl
      all_goals exfalso
      all_goals simp_all only [decide_eq_true_eq,
        decide_eq_false_iff_not, abs_pos, not_lt, not_not, not_true,
        abs_nonpos_iff, not_false_iff, Option.some.injEq, reduceCtorEq]
      all_goals omega
    rw [heq]
    have hmono := gridEvol_pathLoop ex ey x (y - 1)
        (removeWall (removeWall (setVisited g x y) x y WallDir.top)
          x (y - 1) WallDir.bottom)
    refine ⟨?_, ?_, ?_⟩
    · intro a b hp hne
      rcases onRepairPath_step_up hygt hp with ⟨ha, hb⟩ | hp2
      · subst ha; subst hb
        apply hmono.1
        rw [removeWall_visited, removeWall_visited,
          setVisited_visited_self]
      · exact ih1 a b hp2 hne
    · intro b h1 h2
      by_cases hb : b = y - 1
      · subst hb
        constructor
        · rw [Walls.bottom_eq_get]
          exact wallsGe_false hmono.2 (by
            rw [removeWall_walls, if_pos ⟨rfl, rfl⟩,
              Walls.get_set_false, if_pos rfl])
        · rw [Walls.top_eq_get]
          exact wallsGe_false hmono.2 (by
            rw [removeWall_walls, if_neg (by omega), removeWall_walls,
              if_pos ⟨rfl, by omega⟩, Walls.get_set_false, if_pos rfl])
      · apply ih2 b <;> omega
    · intro a h1 h2
      apply ih3 a <;> omega
  | case7 x y g h val hval hy hx hxx hnone =>
    intro hxy
    exfalso
    simp only [decide_eq_true_eq] at hxx
    have hv2 : validP (x + 1) y := by
      unfold validP at hxy hex ⊢
      omega
    rw [getCell_eq_some hv2] at hnone
    exact absurd hnone (by simp)
  | case8 x y g h val hval hy hx hxx val2 hval2 ih =>
    intro hxy
    simp only [decide_eq_true_eq, decide_eq_false_iff_not, abs_pos,
      not_lt, not_not, abs_nonpos_iff] at hy hxx
    have hyey : y = ey := by omega
    have hxlt : x < ex := by omega
    have hv2 : validP (x + 1) y := by
      unfold validP at hxy hex ⊢
      omega
    obtain ⟨ih1, ih2, ih3⟩ := ih hv2
    have heq : pathLoop ex ey x y g = pathLoop ex ey (x + 1) y
        (removeWall (removeWall (setVisited g x y) x y WallDir.right)
          (x + 1) y WallDir.left) := by
      clear ih ih1 ih2 ih3
      rw [pathLoop.eq_def]
      rw [if_neg h]
      simp only [hval]
      repeat' split
      all_goals try rfl
      all_goals exfalso
      all_goals simp_all only [decide_eq_true_eq,
        decide_eq_false_iff_not, abs_pos, not_lt, not_not, not_true,
        abs_nonpos_iff, not_false_iff, Option.some.injEq, reduceCtorEq]
      all_goals omega
    rw [heq]
    have hmono := gridEvol_pathLoop ex ey (x + 1) y
        (removeWall (removeWall (setVisited g x y) x y WallDir.right)
          (x + 1) y WallDir.left)
    refine ⟨?_, ?_, ?_⟩
    · intro a b hp hne
      rcases onRepairPath_step_right hyey hxlt hp with ⟨ha, hb⟩ | hp2
      · subst ha; subst hb
        apply hmono.1
        rw [removeWall_visited, removeWall_visited,
          setVisited_visited_self]
      · exact ih1 a b hp2 hne
    · intro b h1 h2
      exfalso
      omega
    · intro a h1 h2
      by_cases ha : a = x
      · subst ha
        constructor
        · rw [Walls.right_eq_get]
          exact wallsGe_false hmono.2 (by
            rw [removeWall_walls, if_neg (by omega), removeWall_walls,
              if_pos ⟨rfl, hyey.symm⟩, Walls.get_set_false, if_pos rfl])
        · rw [Walls.left_eq_get]
          exact wallsGe_false hmono.2 (by
            rw [removeWall_walls, if_pos ⟨rfl, hyey.symm⟩,
              Walls.get_set_false, if_pos rfl])
      · apply ih3 a <;> omega
  | case9 x y g h val hval hy hx hxx hnone =>
    intro hxy
    exfalso
    simp only [decide_eq_true_eq, decide_eq_false_iff_not, abs_pos,
      not_lt, not_not, abs_nonpos_iff] at hx hxx
    have hv2 : validP (x - 1) y := by
      unfold validP at hxy hex ⊢
      omega
    rw [getCell_eq_some hv2] at hnone
    exact absurd hnone (by simp)
  | case10 x y g h val hval hy hx hxx val2 hval2 ih =>
    intro hxy
    simp only [decide_eq_true_eq, decide_eq_false_iff_not, abs_pos,
      not_lt, not_not, abs_nonpos_iff] at hy hx hxx
    have hyey : y = ey := by omega
    have hxgt : ex < x := by omega
    have hv2 : validP (x - 1) y := by
      unfold validP at hxy hex ⊢
      omega
    obtain ⟨ih1, ih2, ih3⟩ := ih hv2
    have heq : pathLoop ex ey x y g = pathLoop ex ey (x - 1) y
        (removeWall (removeWall (setVisited g x y) x y WallDir.left)
          (x - 1) y WallDir.right) := by
      clear ih ih1 ih2 ih3
      rw [pathLoop.eq_def]
      rw [if_neg h]
      simp only [hval]
      repeat' split
      all_goals try rfl
      all_goals exfalso
      all_goals simp_all only [decide_eq_true_eq,
        decide_eq_false_iff_not, abs_pos, not_lt, not_not, not_true,
        abs_nonpos_iff, not_false_iff, Option.some.injEq, reduceCtorEq]
      all_goals omega
    rw [heq]
    have hmono := gridEvol_pathLoop ex ey (x - 1) y
        (removeWall (removeWall (setVisited g x y) x y WallDir.left)
          (x - 1) y WallDir.right)
    refine ⟨?_, ?_, ?_⟩
    · intro a b hp hne
      rcases onRepairPath_step_left hyey hxgt hp with ⟨ha, hb⟩ | hp2
      · subst ha; subst hb
        apply hmono.1
        rw [removeWall_visited, removeWall_visited,
          setVisited_visited_self]
      · exact ih1 a b hp2 hne
    · intro b h1 h2
      exfalso
      omega
    · intro a h1 h2
      by_cases ha : a = x - 1
      · subst ha
        constructor
        · rw [Walls.right_eq_get]
          exact wallsGe_false hmono.2 (by
            rw [removeWall_walls, if_pos ⟨rfl, hyey.symm⟩,
              Walls.get_set_false, if_pos rfl])
        · rw [Walls.left_eq_get]
          exact wallsGe_false hmono.2 (by
            rw [removeWall_walls, if_neg (by omega), removeWall_walls,
              if_pos ⟨by omega, hyey.symm⟩, Walls.get_set_false,
              if_pos rfl])
      · apply ih3 a <;> omega
  | case11 x y g h val hval hy hx =>
    intro hxy
    exfalso
    simp only [decide_eq_false_iff_not, abs_pos, not_not, abs_nonpos_iff] at hy hx
    exact h ⟨by omega, by omega⟩

/-! ### Claim theorems -/

/-- Claim C1: building the maze is deterministic.  `generateMaze` resets
the PRNG counter and the grid before carving, so two calls with the same
PRNG stream leave bit-identical wall flags and visited flags in every
cell, regardless of the states (grid, counter position, cached anchor)
the two calls start from. -/
theorem claim_C1_determinism (ρ : Nat → Rat) (s t : MazeState)
    (x y : Int) :
    ((generateMaze ρ s).grid x y).walls =
      ((generateMaze ρ t).grid x y).walls ∧
    ((generateMaze ρ s).grid x y).visited =
      ((generateMaze ρ t).grid x y).visited := by
  rw [generateMaze_grid_const ρ s, generateMaze_grid_const ρ t]
  exact ⟨rfl, rfl⟩

/-- Claim C2: full connectivity.  For every PRNG stream with outputs in
`[0, 1)` (the output range of the source's generator), after
`generateMaze` completes, every one of the 50 × 50 cells has
`visited = true`. -/
theorem claim_C2_full_connectivity (ρ : Nat → Rat)
    (hρ : ∀ i, 0 ≤ ρ i ∧ ρ i < 1) (s : MazeState) (x y : Int)
    (hxy : validP x y) :
    ((generateMaze ρ s).grid x y).visited = true :=
  generateMaze_all_visited ρ hρ s x y hxy

theorem claim_C2_full_connectivity_witness :
    ((generateMaze zeroStream constructorState).grid 0 0).visited =
      true :=
  claim_C2_full_connectivity zeroStream
    (fun i => by unfold zeroStream; norm_num) constructorState 0 0
    (by decide)

/-- Claim C4: walkability agrees with `visited`.  `isWalkablePath` is
true on the platform z-range (`worldZ < 0` or
`worldZ ≥ MAZE_SIZE * PATH_WIDTH`); otherwise it is true exactly when
the cell `(⌊worldX / PATH_WIDTH⌋, ⌊worldZ / PATH_WIDTH⌋)` is in bounds
and has `visited = true` (hence false at every out-of-bounds grid
coordinate). -/
theorem claim_C4_walkability (s : MazeState) (wx wy wz : Rat) :
    ((wz < 0 ∨ (MAZE_SIZE : Rat) * PATH_WIDTH ≤ wz) →
      isWalkablePath s wx wy wz = true) ∧
    (0 ≤ wz → wz < (MAZE_SIZE : Rat) * PATH_WIDTH →
      (isWalkablePath s wx wy wz = true ↔
        validP ⌊wx / PATH_WIDTH⌋ ⌊wz / PATH_WIDTH⌋ ∧
        (s.grid ⌊wx / PATH_WIDTH⌋ ⌊wz / PATH_WIDTH⌋).visited = true)) := by
  constructor
  · intro h
    unfold isWalkablePath
    rw [if_pos]
    rcases h with h | h
    · exact Or.inl h
    · exact Or.inr h
  · intro hz1 hz2
    unfold isWalkablePath
    rw [if_neg (by push_neg; exact ⟨hz1, hz2⟩)]
    dsimp only
    rw [Bool.and_eq_true, isValidCell_iff]
    unfold isWalkableCell
    constructor
    · intro ⟨hv, hw⟩
      refine ⟨hv, ?_⟩
      rw [getCell_eq_some hv] at hw
      exact hw
    · intro ⟨hv, hw⟩
      refine ⟨hv, ?_⟩
      rw [getCell_eq_some hv]
      exact hw

theorem claim_C4_walkability_witness :
    isWalkablePath constructorState 0 0 (-1) = true :=
  (claim_C4_walkability constructorState 0 0 (-1)).1
    (Or.inl (by norm_num))

/-- Claim C6: entrance and exit placement and openness.  After any
build, the entrance is `(25, 0)` with its top wall absent and the exit
is `(25, 49)` with its bottom wall absent; no later pipeline step
re-adds either wall (walls are only ever removed after the reset). -/
theorem claim_C6_entrance_exit (ρ : Nat → Rat) (s : MazeState) :
    (generateMaze ρ s).entrance = (25, 0) ∧
    (generateMaze ρ s).exitCell = (25, 49) ∧
    ((generateMaze ρ s).grid 25 0).walls.top = false ∧
    ((generateMaze ρ s).grid 25 49).walls.bottom = false := by
  rw [generateMaze_unfolded]
  have hframe := framePres_depthFirstSearch ρ 25 0
    (dfsStartState s.entranceWorldPosition)
  set inner : MazeState :=
    ⟨removeWall (depthFirstSearch ρ 25 0
        (dfsStartState s.entranceWorldPosition)).grid
        25 (MAZE_SIZE - 1) WallDir.bottom,
      (depthFirstSearch ρ 25 0
        (dfsStartState s.entranceWorldPosition)).entrance,
      (depthFirstSearch ρ 25 0
        (dfsStartState s.entranceWorldPosition)).exitCell,
      (depthFirstSearch ρ 25 0
        (dfsStartState s.entranceWorldPosition)).entranceWorldPosition,
      (depthFirstSearch ρ 25 0
        (dfsStartState s.entranceWorldPosition)).currentSeed⟩
    with hinner
  have hframe2 := framePres_addExtraConnections ρ inner
  refine ⟨?_, ?_, ?_, ?_⟩
  · rw [hframe2.1, hinner]
    exact hframe.1.trans (by rfl)
  · rw [hframe2.2, hinner]
    refine hframe.2.trans ?_
    unfold dfsStartState
    norm_num [MAZE_SIZE]
  · have hchain : wallsGe (dfsStartState s.entranceWorldPosition).grid
        (addExtraConnections ρ inner).grid := by
      refine wallsGe_trans (gridEvol_depthFirstSearch ρ 25 0
        (dfsStartState s.entranceWorldPosition)).2 ?_
      refine wallsGe_trans ?_ (gridEvol_addExtraConnections ρ inner).2
      rw [hinner]
      exact (gridEvol_removeWall _ 25 (MAZE_SIZE - 1) WallDir.bottom).2
    have hw0 : ((dfsStartState s.entranceWorldPosition).grid 25 0).walls.get
        WallDir.top = false := by
      unfold dfsStartState
      dsimp only
      rw [removeWall_walls, if_pos ⟨rfl, rfl⟩, Walls.get_set_false,
        if_pos rfl]
    exact wallsGe_false hchain hw0
  · have hchain : wallsGe inner.grid (addExtraConnections ρ inner).grid :=
      (gridEvol_addExtraConnections ρ inner).2
    have hw0 : (inner.grid 25 49).walls.get WallDir.bottom = false := by
      rw [hinner]
      dsimp only
      rw [removeWall_walls, if_pos (by constructor <;> decide),
        Walls.get_set_false, if_pos rfl]
    exact wallsGe_false hchain hw0

/-- Claim C7: loop injection performs exactly
`floor(MAZE_SIZE² * 0.1) = 250` iterations of one step; each step draws
a cell and a direction from the seeded PRNG, removes the wall pair
toward the neighbour exactly when the neighbour is in bounds, and no
iteration ever changes a visited flag. -/
theorem claim_C7_loop_injection (ρ : Nat → Rat)
    (hρ : ∀ i, 0 ≤ ρ i ∧ ρ i < 1) :
    connectionsToAdd = 250 ∧
    (∀ (s : MazeState) (a b : Int),
      ((addExtraConnections ρ s).grid a b).visited =
        (s.grid a b).visited) ∧
    (∀ s : MazeState, addExtraConnections ρ s =
      (List.range connectionsToAdd).foldl (fun t _ => extraStep ρ t) s) ∧
    (∀ s : MazeState, ∃ dir : Direction,
      jsGet DIRECTIONS
        ⌊ρ (s.currentSeed + 2) * ((DIRECTIONS.length : Nat) : Rat)⌋ =
        some dir ∧
      extraStep ρ s =
        { s with
          currentSeed := s.currentSeed + 3
          grid := (if isValidCell
              (⌊ρ s.currentSeed * (MAZE_SIZE : Rat)⌋ + dir.x)
              (⌊ρ (s.currentSeed + 1) * (MAZE_SIZE : Rat)⌋ + dir.y) then
            removeWall
              (removeWall s.grid ⌊ρ s.currentSeed * (MAZE_SIZE : Rat)⌋
                ⌊ρ (s.currentSeed + 1) * (MAZE_SIZE : Rat)⌋ dir.wall)
              (⌊ρ s.currentSeed * (MAZE_SIZE : Rat)⌋ + dir.x)
              (⌊ρ (s.currentSeed + 1) * (MAZE_SIZE : Rat)⌋ + dir.y)
              dir.opposite
          else s.grid) }) := by
  refine ⟨by rw [show connectionsToAdd = Int.toNat 250 by
      norm_num [connectionsToAdd, MAZE_SIZE]]; rfl,
    addExtraConnections_visited_eq ρ, fun s => rfl, fun s => ?_⟩
  exact extraStep_spec ρ s (hρ s.currentSeed).1 (hρ s.currentSeed).2
    (hρ (s.currentSeed + 1)).1 (hρ (s.currentSeed + 1)).2
    (hρ (s.currentSeed + 2)).1 (hρ (s.currentSeed + 2)).2

theorem claim_C7_loop_injection_witness : connectionsToAdd = 250 :=
  (claim_C7_loop_injection zeroStream
    (fun i => by unfold zeroStream; norm_num)).1

/-- Claim C5: exclusion-radius sampling with fallback.  With the PRNG
draw in `[0, 1)` and `excludeRadius > 0`: the result is `none` exactly
when there are no walkable cells; any returned point is the center of a
walkable (visited, in-bounds) cell; and whenever some walkable cell has
Manhattan distance greater than `excludeRadius` from both the entrance
and the exit, the returned point is the center of such a cell. -/
theorem claim_C5_random_walkable (ρ : Nat → Rat) (r : Rat)
    (s : MazeState) (hr : r > 0)
    (h0 : 0 ≤ ρ s.currentSeed) (h1 : ρ s.currentSeed < 1) :
    ((getRandomWalkablePosition ρ r s).1 = none ↔
      getAllWalkableCells s = []) ∧
    (∀ v : Vec3, (getRandomWalkablePosition ρ r s).1 = some v →
      ∃ gx gz : Int, v = getCellCenter s gx gz ∧ validP gx gz ∧
        (s.grid gx gz).visited = true) ∧
    ((∃ p : Int × Int, validP p.1 p.2 ∧
        (s.grid p.1 p.2).visited = true ∧
        ((|p.1 - s.entrance.1| + |p.2 - s.entrance.2| : Int) : Rat) > r ∧
        ((|p.1 - s.exitCell.1| + |p.2 - s.exitCell.2| : Int) : Rat) > r) →
      ∃ gx gz : Int, (getRandomWalkablePosition ρ r s).1 =
          some (getCellCenter s gx gz) ∧ validP gx gz ∧
        (s.grid gx gz).visited = true ∧
        ((|gx - s.entrance.1| + |gz - s.entrance.2| : Int) : Rat) > r ∧
        ((|gx - s.exitCell.1| + |gz - s.exitCell.2| : Int) : Rat) > r) := by
  by_cases hw0 : getAllWalkableCells s = []
  · have hres : getRandomWalkablePosition ρ r s = (none, s) := by
      unfold getRandomWalkablePosition
      rw [hw0]
      rfl
    refine ⟨by rw [hres]; simp [hw0], ?_, ?_⟩
    · intro v hv
      rw [hres] at hv
      exact absurd hv (by simp)
    · rintro ⟨p, hp1, hp2, _, _⟩
      exfalso
      have : p ∈ getAllWalkableCells s :=
        mem_getAllWalkableCells.mpr ⟨hp1, hp2⟩
      rw [hw0] at this
      exact absurd this (List.not_mem_nil _)
  · have hwlen : ¬((getAllWalkableCells s).length = 0) := by
      intro h
      exact hw0 (List.length_eq_zero.mp h)
    by_cases hFe : ((getAllWalkableCells s).filter (fun cell =>
        decide ((((|cell.1 - s.entrance.1| + |cell.2 - s.entrance.2|
          : Int)) : Rat) > r ∧
          (((|cell.1 - s.exitCell.1| + |cell.2 - s.exitCell.2|
          : Int)) : Rat) > r))).length = 0
    · -- the eligible set is empty: fall back to all walkable cells
      have hb := randomIndex_bounds h0 h1
        (List.length_pos.mpr hw0)
      obtain ⟨c, hjg, hcmem⟩ := jsGet_eq_some hb.1 (by
        exact_mod_cast hb.2)
      have hres : getRandomWalkablePosition ρ r s =
          (some (getCellCenter s c.1 c.2),
            { s with currentSeed := s.currentSeed + 1 }) := by
        unfold getRandomWalkablePosition
        rw [if_neg hwlen]
        dsimp only [seedRandom]
        rw [if_pos hr, if_pos hFe, if_neg hwlen, hjg]
        rfl
      obtain ⟨hcval, hcvis⟩ := mem_getAllWalkableCells.mp hcmem
      refine ⟨by rw [hres]; simp [hw0], ?_, ?_⟩
      · intro v hv
        rw [hres] at hv
        exact ⟨c.1, c.2, (Option.some.inj hv).symm, hcval, hcvis⟩
      · rintro ⟨p, hp1, hp2, hp3, hp4⟩
        exfalso
        have : p ∈ (getAllWalkableCells s).filter (fun cell =>
            decide ((((|cell.1 - s.entrance.1| + |cell.2 - s.entrance.2|
              : Int)) : Rat) > r ∧
              (((|cell.1 - s.exitCell.1| + |cell.2 - s.exitCell.2|
              : Int)) : Rat) > r)) := by
          rw [List.mem_filter]
          exact ⟨mem_getAllWalkableCells.mpr ⟨hp1, hp2⟩,
            by rw [decide_eq_true_eq]; exact ⟨hp3, hp4⟩⟩
        have hpos := List.length_pos.mpr (List.ne_nil_of_mem this)
        omega
    · -- the eligible set is nonempty: sample from it
      have hElen : 0 < ((getAllWalkableCells s).filter (fun cell =>
          decide ((((|cell.1 - s.entrance.1| + |cell.2 - s.entrance.2|
            : Int)) : Rat) > r ∧
            (((|cell.1 - s.exitCell.1| + |cell.2 - s.exitCell.2|
            : Int)) : Rat) > r))).length := by omega
      have hb := randomIndex_bounds h0 h1 hElen
      obtain ⟨c, hjg, hcmem⟩ := jsGet_eq_some hb.1 (by
        exact_mod_cast hb.2)
      have hres : getRandomWalkablePosition ρ r s =
          (some (getCellCenter s c.1 c.2),
            { s with currentSeed := s.currentSeed + 1 }) := by
        unfold getRandomWalkablePosition
        rw [if_neg hwlen]
        dsimp only [seedRandom]
        rw [if_pos hr, if_neg hFe, if_neg hFe, hjg]
        rfl
      obtain ⟨hcw, hcp⟩ := List.mem_filter.mp hcmem
      obtain ⟨hcval, hcvis⟩ := mem_getAllWalkableCells.mp hcw
      rw [decide_eq_true_eq] at hcp
      refine ⟨by rw [hres]; simp [hw0], ?_, ?_⟩
      · intro v hv
        rw [hres] at hv
        exact ⟨c.1, c.2, (Option.some.inj hv).symm, hcval, hcvis⟩
      · intro _
        exact ⟨c.1, c.2, by rw [hres], hcval, hcvis, hcp.1, hcp.2⟩

theorem claim_C5_random_walkable_witness :
    (getRandomWalkablePosition zeroStream 2 constructorState).1 =
        none ↔
      getAllWalkableCells constructorState = [] :=
  (claim_C5_random_walkable zeroStream 2 constructorState
    (by norm_num) (by unfold zeroStream; norm_num)
    (by unfold zeroStream; norm_num)).1

/-- Whenever any walkable cell exists, `getRandomWalkablePosition`
advances the module-level seed counter by one (it calls `seedRandom`),
and touches no other state field. -/
theorem getRandomWalkablePosition_state (ρ : Nat → Rat) (r : Rat)
    (s : MazeState) (hw : getAllWalkableCells s ≠ []) :
    (getRandomWalkablePosition ρ r s).2 =
      { s with currentSeed := s.currentSeed + 1 } := by
  have hwlen : ¬((getAllWalkableCells s).length = 0) := by
    intro h
    exact hw (List.length_eq_zero.mp h)
  unfold getRandomWalkablePosition
  rw [if_neg hwlen]
  dsimp only [seedRandom]
  by_cases hr0 : r > 0
  · rw [if_pos hr0]
    by_cases hFe : ((getAllWalkableCells s).filter (fun cell =>
        decide ((((|cell.1 - s.entrance.1| + |cell.2 - s.entrance.2|
          : Int)) : Rat) > r ∧
          (((|cell.1 - s.exitCell.1| + |cell.2 - s.exitCell.2|
          : Int)) : Rat) > r))).length = 0
    · rw [if_pos hFe, if_neg hwlen]
      split <;> rfl
    · rw [if_neg hFe, if_neg hFe]
      split <;> rfl
  · rw [if_neg hr0, if_neg hwlen, if_neg hwlen]
    split <;> rfl

/-- Claim C9 (counterexample): the query layer is NOT pure.
`getEntrance` overwrites the cached `entranceWorldPosition`, and
`getRandomWalkablePosition` advances the module-level PRNG seed counter
whenever a walkable cell exists — here shown on concrete states. -/
theorem claim_C9_counterexample :
    (getEntrance constructorState).2.entranceWorldPosition ≠
      constructorState.entranceWorldPosition ∧
    (getRandomWalkablePosition zeroStream 2
        oneVisitedState).2.currentSeed ≠
      oneVisitedState.currentSeed := by
  constructor
  · intro h
    have hx := congrArg Vec3.x h
    norm_num [getEntrance, constructorState, PATH_WIDTH] at hx
  · have hmem : ((0 : Int), (0 : Int)) ∈
        getAllWalkableCells oneVisitedState :=
      mem_getAllWalkableCells.mpr ⟨by decide,
        setVisited_visited_self initializeGrid 0 0⟩
    rw [getRandomWalkablePosition_state zeroStream 2 oneVisitedState
      (List.ne_nil_of_mem hmem)]
    dsimp only
    omega

/-- Claim C9 (amended): the queries `isWalkablePath`, `getCellCenter`,
`getAllWalkableCells`, `getExit` are pure reads; `getEntrance` and
`getRandomWalkablePosition` leave the grid and the entrance/exit
coordinates unchanged, but `getEntrance` overwrites the cached entrance
world position with the value it returns, and
`getRandomWalkablePosition` advances the module-level seed counter by
one whenever any walkable cell exists (and by nothing otherwise). -/
theorem claim_C9_amended (s : MazeState) (ρ : Nat → Rat) (r : Rat) :
    ((getEntrance s).2.grid = s.grid ∧
      (getEntrance s).2.entrance = s.entrance ∧
      (getEntrance s).2.exitCell = s.exitCell ∧
      (getEntrance s).2.currentSeed = s.currentSeed ∧
      (getEntrance s).2.entranceWorldPosition = (getEntrance s).1) ∧
    ((getRandomWalkablePosition ρ r s).2.grid = s.grid ∧
      (getRandomWalkablePosition ρ r s).2.entrance = s.entrance ∧
      (getRandomWalkablePosition ρ r s).2.exitCell = s.exitCell ∧
      (getRandomWalkablePosition ρ r s).2.entranceWorldPosition =
        s.entranceWorldPosition ∧
      ((getRandomWalkablePosition ρ r s).2.currentSeed =
          s.currentSeed ∨
        (getRandomWalkablePosition ρ r s).2.currentSeed =
          s.currentSeed + 1)) := by
  refine ⟨⟨rfl, rfl, rfl, rfl, rfl⟩, ?_⟩
  unfold getRandomWalkablePosition
  dsimp only [seedRandom]
  repeat' split
  all_goals first
    | exact ⟨rfl, rfl, rfl, rfl, Or.inl rfl⟩
    | exact ⟨rfl, rfl, rfl, rfl, Or.inr rfl⟩

/-- Claim C3 (failing input): one `addRandomPaths` call on the freshly
initialized grid, drawing row 0, column 1 and wall index 3, removes the
left wall of cell `(1, 0)` but leaves the right wall of its left
neighbour `(0, 0)` present — the source's fourth branch removes
`cellLeft.walls.left` instead of `cellLeft.walls.right`, violating
mutual wall consistency. -/
theorem claim_C3_wall_pairing_bug :
    ((addRandomPaths bugStream 0 1 constructorState).grid 1 0).walls.left
      = false ∧
    ((addRandomPaths bugStream 0 1 constructorState).grid 0 0).walls.right
      = true ∧
    ((addRandomPaths bugStream 0 1 constructorState).grid 0 0).walls.left
      = false := by
  have e1 : (⌊bugStream 0 * ((MAZE_SIZE : Rat) - 1)⌋ : Int) = 0 := by
    norm_num [bugStream, MAZE_SIZE]
  have e2 : (⌊bugStream (0 + 1) * ((MAZE_SIZE : Rat) - 1)⌋ : Int) = 1 := by
    norm_num [bugStream, MAZE_SIZE]
  have e3 : (⌊bugStream (0 + 2) * (4 : Rat)⌋ : Int) = 3 := by
    norm_num [bugStream]
  have hgrid : (addRandomPaths bugStream 0 1 constructorState).grid =
      removeWall (removeWall initializeGrid 1 0 WallDir.left) 0 0
        WallDir.left := by
    unfold addRandomPaths
    rw [show List.range 1 = [0] from rfl]
    dsimp only [List.foldl]
    unfold randomPathStep
    rw [show constructorState.grid = initializeGrid from rfl]
    rw [e1, e2]
    dsimp only
    rw [getCell_eq_some (show validP 1 0 by decide)]
    dsimp only
    rw [e3]
    rw [if_neg (by decide), if_neg (by decide), if_neg (by decide),
      if_pos (by decide)]
    rw [show (1 : Int) - 1 = 0 from by norm_num]
    rw [getCell_eq_some (show validP 0 0 by decide)]
  rw [hgrid]
  decide

/-- Claim C10: the `worldY` argument of `isWalkablePath` is ignored: the
result only depends on `worldX` and `worldZ`. -/
theorem claim_C10_worldY_ignored (s : MazeState) (wx wz y1 y2 : Rat) :
    isWalkablePath s wx y1 wz = isWalkablePath s wx y2 wz := rfl

/-- Claim C8: connectivity repair.  (1) When the exit cell is already
visited, the in-loop repair check `checkExitRepair` returns its state
completely unchanged.  (2) When some in-bounds visited cell exists and
the exit coordinates are in bounds, `connectToExit` selects the visited
cell with minimum Manhattan distance to the exit, ties broken by
row-major scan order (first found wins), and carves the
vertical-then-horizontal corridor from it to the exit: every cell of the
corridor (including the exit) ends up visited, every wall pair along the
vertical segment and along the horizontal segment is removed. -/
theorem claim_C8_repair (s : MazeState) :
    (∀ st : List (Int × Int), hasPathToExit s = true →
      checkExitRepair s st = (s, st)) ∧
    ((∃ p : Int × Int, vvP s p) → validP s.exitCell.1 s.exitCell.2 →
      ∃ cx cy : Int,
        vvP s (cx, cy) ∧
        (∀ p : Int × Int, vvP s p →
          exitDist s (cx, cy) ≤ exitDist s p) ∧
        (∀ p : Int × Int, vvP s p →
          exitDist s p = exitDist s (cx, cy) → rowMajorLe (cx, cy) p) ∧
        connectToExit s = createPathToExit cx cy s ∧
        (∀ a b : Int,
          onRepairPath cx cy s.exitCell.1 s.exitCell.2 a b →
          ((connectToExit s).grid a b).visited = true) ∧
        (∀ b : Int, min cy s.exitCell.2 ≤ b → b < max cy s.exitCell.2 →
          ((connectToExit s).grid cx b).walls.bottom = false ∧
          ((connectToExit s).grid cx (b + 1)).walls.top = false) ∧
        (∀ a : Int, min cx s.exitCell.1 ≤ a → a < max cx s.exitCell.1 →
          ((connectToExit s).grid a s.exitCell.2).walls.right = false ∧
          ((connectToExit s).grid (a + 1) s.exitCell.2).walls.left =
            false)) := by
  constructor
  · intro st h
    exact checkExitRepair_of_exitVisited h
  · intro hex hexv
    obtain ⟨cx, cy, hscan, hvv, hmin, htie⟩ :=
      closestVisitedToExit_spec s hex
    have hconn : connectToExit s = createPathToExit cx cy s := by
      unfold connectToExit
      rw [hscan]
    have hgrid : (connectToExit s).grid =
        setVisited (pathLoop s.exitCell.1 s.exitCell.2 cx cy s.grid)
          s.exitCell.1 s.exitCell.2 := by
      rw [hconn]
      unfold createPathToExit markExitVisited
      dsimp only
      rw [getCell_eq_some hexv]
    obtain ⟨P1, P2, P3⟩ :=
      pathLoop_props s.exitCell.1 s.exitCell.2 hexv cx cy s.grid hvv.1
    refine ⟨cx, cy, hvv, hmin, htie, hconn, ?_, ?_, ?_⟩
    · intro a b hp
      by_cases hab : a = s.exitCell.1 ∧ b = s.exitCell.2
      · obtain ⟨h1, h2⟩ := hab
        subst h1; subst h2
        rw [hgrid]
        exact setVisited_visited_self _ _ _
      · rw [hgrid, setVisited_visited, if_neg hab]
        exact P1 a b hp hab
    · intro b h1 h2
      rw [hgrid, setVisited_walls, setVisited_walls]
      exact P2 b h1 h2
    · intro a h1 h2
      rw [hgrid, setVisited_walls, setVisited_walls]
      exact P3 a h1 h2

theorem claim_C8_repair_witness :
    checkExitRepair exitVisitedState [] = (exitVisitedState, []) :=
  (claim_C8_repair exitVisitedState).1 [] (by decide)

end MazeDash
